import Mathlib

set_option maxHeartbeats 1000000

namespace ContextWorkspaces

/-!
Shallow embedding of the synchronization core of the context-workspaces
plugin.  JavaScript objects keyed by strings are modelled as association
lists in insertion order (matching Object.keys / Object.entries iteration
order); object key sets are duplicate-free, which appears as Nodup
hypotheses on the key lists where a proof needs it.
-/

/-- Lookup in a string-keyed association list (first matching key, which is
the only one for duplicate-free keys, as for a JS object). -/
def alookup {α : Type} (l : List (String × α)) (k : String) : Option α :=
  match l with
  | [] => none
  | (k₂, v) :: t => if k₂ = k then some v else alookup t k

/-- Overwrite the value stored at an existing key, keeping its position,
as assignment to an existing JS object property does. -/
def aset {α : Type} (l : List (String × α)) (k : String) (v : α) : List (String × α) :=
  match l with
  | [] => []
  | (k₂, v₂) :: t => if k₂ = k then (k₂, v) :: t else (k₂, v₂) :: aset t k v

/-- Remove the first entry with the given key, as the JS delete operator
does on an object property (objects hold each key once). -/
def adel {α : Type} (l : List (String × α)) (k : String) : List (String × α) :=
  match l with
  | [] => []
  | (k₂, v₂) :: t => if k₂ = k then t else (k₂, v₂) :: adel t k

/-- Set a key: overwrite in place when present, append when new — the
semantics of JS property assignment including insertion order. -/
def aupsert {α : Type} (l : List (String × α)) (k : String) (v : α) : List (String × α) :=
  if (alookup l k).isSome then aset l k v else l ++ [(k, v)]

/-- Key list of an association list (Object.keys). -/
def akeys {α : Type} (l : List (String × α)) : List String :=
  l.map Prod.fst

/-- Remove the first occurrence of an element from a list, matching
indexOf followed by splice with count one. -/
def orderErase (l : List String) (k : String) : List String :=
  match l with
  | [] => []
  | x :: t => if x = k then t else x :: orderErase t k

@[simp] theorem alookup_nil {α : Type} (k : String) : alookup ([] : List (String × α)) k = none := rfl

theorem alookup_cons {α : Type} (k₂ : String) (v : α) (t : List (String × α)) (k : String) :
    alookup ((k₂, v) :: t) k = if k₂ = k then some v else alookup t k := rfl

theorem alookup_append {α : Type} (l₁ l₂ : List (String × α)) (k : String) :
    alookup (l₁ ++ l₂) k = ((alookup l₁ k).or (alookup l₂ k)) := by
  induction l₁ with
  | nil => simp [alookup]
  | cons h t ih =>
    obtain ⟨k₂, v⟩ := h
    by_cases hk : k₂ = k <;> simp [alookup, hk, ih]

theorem alookup_append_left {α : Type} {l₁ : List (String × α)} {k : String} {v : α}
    (h : alookup l₁ k = some v) (l₂ : List (String × α)) :
    alookup (l₁ ++ l₂) k = some v := by
  rw [alookup_append, h]; rfl

theorem alookup_append_right {α : Type} {l₁ : List (String × α)} {k : String}
    (h : alookup l₁ k = none) (l₂ : List (String × α)) :
    alookup (l₁ ++ l₂) k = alookup l₂ k := by
  rw [alookup_append, h]; rfl

theorem alookup_eq_none_iff {α : Type} (l : List (String × α)) (k : String) :
    alookup l k = none ↔ k ∉ akeys l := by
  induction l with
  | nil => simp [alookup, akeys]
  | cons h t ih =>
    obtain ⟨k₂, v⟩ := h
    by_cases hk : k₂ = k
    · subst hk
      simp [alookup, akeys]
    · simp [alookup, akeys, hk, ih, Ne.symm hk]

theorem alookup_isSome_iff {α : Type} (l : List (String × α)) (k : String) :
    (alookup l k).isSome = true ↔ k ∈ akeys l := by
  rw [Option.isSome_iff_ne_none]
  constructor
  · intro h
    by_contra hk
    exact h ((alookup_eq_none_iff l k).2 hk)
  · intro h he
    exact ((alookup_eq_none_iff l k).1 he) h

theorem alookup_mem {α : Type} {l : List (String × α)} {k : String} {v : α}
    (h : alookup l k = some v) : (k, v) ∈ l := by
  induction l with
  | nil => simp [alookup] at h
  | cons hd t ih =>
    obtain ⟨k₂, v₂⟩ := hd
    by_cases hk : k₂ = k
    · subst hk
      simp [alookup] at h
      subst h
      exact List.mem_cons_self _ _
    · simp [alookup, hk] at h
      exact List.mem_cons_of_mem _ (ih h)

@[simp] theorem akeys_nil₀ {α : Type} : akeys ([] : List (String × α)) = [] := rfl

@[simp] theorem akeys_cons {α : Type} (k : String) (v : α) (t : List (String × α)) :
    akeys ((k, v) :: t) = k :: akeys t := rfl

theorem alookup_of_mem_nodup {α : Type} {l : List (String × α)} {k : String} {v : α}
    (hnd : (akeys l).Nodup) (h : (k, v) ∈ l) : alookup l k = some v := by
  induction l with
  | nil => simp at h
  | cons hd t ih =>
    obtain ⟨k₂, v₂⟩ := hd
    rw [akeys_cons, List.nodup_cons] at hnd
    rcases List.mem_cons.1 h with h₁ | h₂
    · obtain ⟨rfl, rfl⟩ := Prod.mk.injEq .. ▸ h₁
      simp [alookup]
    · have hk : k₂ ≠ k := by
        intro he
        subst he
        exact hnd.1 (by simpa [akeys] using (List.mem_map_of_mem Prod.fst h₂))
      simp [alookup, hk]
      exact ih hnd.2 h₂

@[simp] theorem akeys_append {α : Type} (l₁ l₂ : List (String × α)) :
    akeys (l₁ ++ l₂) = akeys l₁ ++ akeys l₂ := by
  simp [akeys]

@[simp] theorem akeys_aset {α : Type} (l : List (String × α)) (k : String) (v : α) :
    akeys (aset l k v) = akeys l := by
  induction l with
  | nil => rfl
  | cons hd t ih =>
    obtain ⟨k₂, v₂⟩ := hd
    by_cases hk : k₂ = k <;> simp [aset, hk, ih]

theorem alookup_aset_self {α : Type} {l : List (String × α)} {k : String} {v₀ : α}
    (h : alookup l k = some v₀) (v : α) : alookup (aset l k v) k = some v := by
  induction l with
  | nil => simp [alookup] at h
  | cons hd t ih =>
    obtain ⟨k₂, v₂⟩ := hd
    by_cases hk : k₂ = k
    · simp [alookup, aset, hk]
    · simp [alookup, aset, hk] at *
      exact ih h

theorem alookup_aset_ne {α : Type} (l : List (String × α)) {k k₂ : String} (v : α)
    (h : k₂ ≠ k) : alookup (aset l k v) k₂ = alookup l k₂ := by
  induction l with
  | nil => rfl
  | cons hd t ih =>
    obtain ⟨k₃, v₃⟩ := hd
    by_cases hk : k₃ = k
    · have h₂ : k₃ ≠ k₂ := fun he => h (he ▸ hk)
      simp [aset, alookup, hk, h₂, Ne.symm h]
    · simp [aset, alookup, hk, ih]

theorem akeys_adel_subset {α : Type} (l : List (String × α)) (k : String) :
    akeys (adel l k) ⊆ akeys l := by
  induction l with
  | nil => simp [adel]
  | cons hd t ih =>
    obtain ⟨k₂, v₂⟩ := hd
    by_cases hk : k₂ = k
    · simp [adel, hk]
    · simp [adel, hk]
      exact ih.trans (List.subset_cons_self _ _)

theorem not_mem_akeys_adel {α : Type} {l : List (String × α)} (hnd : (akeys l).Nodup)
    (k : String) : k ∉ akeys (adel l k) := by
  induction l with
  | nil => simp [adel]
  | cons hd t ih =>
    obtain ⟨k₂, v₂⟩ := hd
    rw [akeys_cons, List.nodup_cons] at hnd
    by_cases hk : k₂ = k
    · subst hk
      simpa [adel] using hnd.1
    · simp [adel, hk, Ne.symm hk]
      exact ih hnd.2

theorem mem_akeys_adel_of_ne {α : Type} {l : List (String × α)} {k₂ : String}
    (h : k₂ ∈ akeys l) (k : String) (hne : k₂ ≠ k) : k₂ ∈ akeys (adel l k) := by
  induction l with
  | nil => simp [adel] at h ⊢
  | cons hd t ih =>
    obtain ⟨k₃, v₃⟩ := hd
    by_cases hk : k₃ = k
    · subst hk
      simp [adel] at h ⊢
      rcases h with h | h
      · exact absurd h hne
      · exact h
    · simp [adel, hk] at h ⊢
      rcases h with h | h
      · exact Or.inl h
      · exact Or.inr (ih h)

theorem akeys_adel_nodup {α : Type} {l : List (String × α)} (hnd : (akeys l).Nodup)
    (k : String) : (akeys (adel l k)).Nodup := by
  induction l with
  | nil => simp [adel]
  | cons hd t ih =>
    obtain ⟨k₂, v₂⟩ := hd
    rw [akeys_cons, List.nodup_cons] at hnd
    by_cases hk : k₂ = k
    · subst hk
      simpa [adel] using hnd.2
    · rw [adel]
      simp only [hk, if_false, akeys_cons, List.nodup_cons]
      exact ⟨fun hm => hnd.1 (akeys_adel_subset t k hm), ih hnd.2⟩

theorem orderErase_subset (l : List String) (k : String) : orderErase l k ⊆ l := by
  induction l with
  | nil => simp [orderErase]
  | cons x t ih =>
    by_cases hx : x = k
    · simp [orderErase, hx]
    · simp [orderErase, hx]
      exact ih.trans (List.subset_cons_self _ _)

theorem not_mem_orderErase {l : List String} (hnd : l.Nodup) (k : String) :
    k ∉ orderErase l k := by
  induction l with
  | nil => simp [orderErase]
  | cons x t ih =>
    rw [List.nodup_cons] at hnd
    by_cases hx : x = k
    · subst hx
      simpa [orderErase] using hnd.1
    · simp [orderErase, hx, Ne.symm hx]
      exact ih hnd.2

theorem mem_orderErase_of_ne {l : List String} {k₂ : String} (h : k₂ ∈ l) (k : String)
    (hne : k₂ ≠ k) : k₂ ∈ orderErase l k := by
  induction l with
  | nil => simp at h
  | cons x t ih =>
    by_cases hx : x = k
    · subst hx
      simp at h
      rcases h with h | h
      · exact absurd h hne
      · simpa [orderErase] using h
    · simp [orderErase, hx] at h ⊢
      rcases h with h | h
      · exact Or.inl h
      · exact Or.inr (ih h)

theorem orderErase_nodup {l : List String} (hnd : l.Nodup) (k : String) :
    (orderErase l k).Nodup := by
  induction l with
  | nil => simp [orderErase]
  | cons x t ih =>
    rw [List.nodup_cons] at hnd
    by_cases hx : x = k
    · subst hx
      simpa [orderErase] using hnd.2
    · rw [orderErase]
      simp only [hx, if_false, List.nodup_cons]
      exact ⟨fun hm => hnd.1 (orderErase_subset t k hm), ih hnd.2⟩

/-! ## Data model (src/types.ts) -/

/-- Theme mode values accepted by the plugin (light, dark, system). -/
inductive ThemeMode : Type
  | light
  | dark
  | system
deriving DecidableEq, Repr

/-- A Space record as stored in the settings document (SpaceConfig in
src/types.ts).  Optional fields are Options; a JS string field that can be
the empty string is just a String. -/
structure SpaceConfig : Type where
  name : String
  icon : String
  autoSave : Bool
  theme : Option String
  themeMode : Option ThemeMode
  description : Option String
  createdAt : Option Nat
deriving DecidableEq, Repr

/-- Build a SpaceConfig carrying only the three required fields, as the
object literals in sync-utils.ts and main.ts do. -/
def mkSpace (name icon : String) (autoSave : Bool) : SpaceConfig :=
  ⟨name, icon, autoSave, none, none, none, none⟩

/-- The persisted settings aggregate (ContextWorkspacesSettings in
src/types.ts): spaces map, explicit order, active identifier and the
last-seen timestamps used by deletion detection. -/
structure ContextWorkspacesSettings : Type where
  spaces : List (String × SpaceConfig)
  spaceOrder : List String
  currentSpaceId : String
  workspaceLastSeen : List (String × Nat)
deriving DecidableEq, Repr

/-- The bijection invariant between spaceOrder and the keys of spaces:
each identifier of spaceOrder has exactly one entry in spaces and each key
of spaces appears exactly once in spaceOrder. -/
def StoreInvariant (s : ContextWorkspacesSettings) : Prop :=
  s.spaceOrder.Nodup ∧ (akeys s.spaces).Nodup ∧
    (∀ id ∈ s.spaceOrder, id ∈ akeys s.spaces) ∧
    (∀ id ∈ akeys s.spaces, id ∈ s.spaceOrder)

instance (s : ContextWorkspacesSettings) : Decidable (StoreInvariant s) := by
  unfold StoreInvariant
  infer_instance

/-! ## Host registry (obsidian-utils.ts boundary)

The host workspace registry is modelled as an association list mapping an
identifier to the name field of the stored workspace entry (the layout
tree is opaque to the core and omitted); the empty string stands for an
absent name field. -/

/-- Snapshot of host workspace names (getObsidianWorkspaceNames): for each
registry entry the exposed name is the entry name, or the identifier when
the name field is falsy. -/
def hostSnapshot (host : List (String × String)) : List (String × String) :=
  host.map (fun p => (p.1, if p.2 = "" then p.1 else p.2))

/-- JS truthiness test of a snapshot lookup: the pattern
obsidianWorkspaceNames[id] used as a condition is false when the key is
absent or its value is the empty string. -/
def hostHas (snap : List (String × String)) (sid : String) : Bool :=
  ((alookup snap sid).getD "") ≠ ""

/-- Insert or overwrite a host registry entry, as assignment into
workspaces.instance.workspaces does (createObsidianWorkspace). -/
def hostInsert (host : List (String × String)) (k v : String) : List (String × String) :=
  if (alookup host k).isSome then aset host k v else host ++ [(k, v)]

/-! ## Reconciliation engine (src/utils/sync-utils.ts, performBidirectionalSync)

The single JS loop over Object.entries(obsidianWorkspaceNames) threads the
mutated settings object while pushing onto the report lists; it is
embedded as one recursion per produced component, each mirroring the same
branch structure and settings threading. -/

/-- Space record created for an identifier imported from the host during
reconciliation (name from host, page icon, snapshot mode). -/
def importedSpace (wname : String) : SpaceConfig :=
  mkSpace wname "📄" false

/-- One recorded name conflict: identifier, host name, stored name, and
the name adopted (the host name). -/
structure SyncConflict : Type where
  workspaceId : String
  obsidianName : String
  contextName : String
  resolvedName : String
deriving DecidableEq, Repr

/-- Spaces map produced by the host-to-store loop of
performBidirectionalSync: absent identifiers are appended with an imported
record, and a present identifier whose stored name differs from the host
name has its name overwritten in place. -/
def syncSpaces : List (String × String) → List (String × SpaceConfig) → List (String × SpaceConfig)
  | [], sp => sp
  | (wid, wname) :: rest, sp =>
    match alookup sp wid with
    | none => syncSpaces rest (sp ++ [(wid, importedSpace wname)])
    | some cfg =>
      if cfg.name = wname then syncSpaces rest sp
      else syncSpaces rest (aset sp wid { cfg with name := wname })

/-- Space order produced by the host-to-store loop: an imported identifier
is appended unless already present; conflicts leave the order alone. -/
def syncOrder : List (String × String) → List (String × SpaceConfig) → List String → List String
  | [], _, ord => ord
  | (wid, wname) :: rest, sp, ord =>
    match alookup sp wid with
    | none =>
      syncOrder rest (sp ++ [(wid, importedSpace wname)])
        (if wid ∈ ord then ord else ord ++ [wid])
    | some cfg =>
      if cfg.name = wname then syncOrder rest sp ord
      else syncOrder rest (aset sp wid { cfg with name := wname }) ord

/-- Identifiers reported as importedFromObsidian by the host-to-store
loop, in iteration order. -/
def syncImported : List (String × String) → List (String × SpaceConfig) → List String
  | [], _ => []
  | (wid, wname) :: rest, sp =>
    match alookup sp wid with
    | none => wid :: syncImported rest (sp ++ [(wid, importedSpace wname)])
    | some cfg =>
      if cfg.name = wname then syncImported rest sp
      else syncImported rest (aset sp wid { cfg with name := wname })

/-- Conflicts reported by the host-to-store loop, in iteration order; the
host name always wins as the resolved name. -/
def syncConflicts : List (String × String) → List (String × SpaceConfig) → List SyncConflict
  | [], _ => []
  | (wid, wname) :: rest, sp =>
    match alookup sp wid with
    | none => syncConflicts rest (sp ++ [(wid, importedSpace wname)])
    | some cfg =>
      if cfg.name = wname then syncConflicts rest sp
      else ⟨wid, wname, cfg.name, wname⟩ :: syncConflicts rest (aset sp wid { cfg with name := wname })

/-- Host registry entries created by the store-to-host loop of
performBidirectionalSync (createObsidianWorkspace writes the stored space
name under the identifier); the createOk oracle stands for whether the
host create call succeeds. -/
def syncCreatedEntries (snap : List (String × String)) (createOk : String → Bool) :
    List (String × SpaceConfig) → List (String × String)
  | [] => []
  | (sid, cfg) :: rest =>
    if hostHas snap sid then syncCreatedEntries snap createOk rest
    else if createOk sid then (sid, cfg.name) :: syncCreatedEntries snap createOk rest
    else syncCreatedEntries snap createOk rest

/-- Identifiers whose host create call failed; the per-identifier error
messages are host supplied and abstracted away. -/
def syncErrors (snap : List (String × String)) (createOk : String → Bool) :
    List (String × SpaceConfig) → List String
  | [] => []
  | (sid, _) :: rest =>
    if hostHas snap sid then syncErrors snap createOk rest
    else if createOk sid then syncErrors snap createOk rest
    else sid :: syncErrors snap createOk rest

/-- Structured report returned by performBidirectionalSync. -/
structure SyncResult : Type where
  importedFromObsidian : List String
  createdInObsidian : List String
  conflicts : List SyncConflict
  errors : List String
deriving DecidableEq, Repr

/-- The whole bidirectional synchronization pass: compute the host
snapshot once, run the host-to-store loop over it, then the store-to-host
loop over the updated spaces map, applying successful creates to the host
registry.  Returns the updated settings, the updated host registry, and
the report. -/
def performBidirectionalSync (createOk : String → Bool) (host : List (String × String))
    (s : ContextWorkspacesSettings) :
    ContextWorkspacesSettings × List (String × String) × SyncResult :=
  let snap := hostSnapshot host
  let sp := syncSpaces snap s.spaces
  let created := syncCreatedEntries snap createOk sp
  ({ s with spaces := sp, spaceOrder := syncOrder snap s.spaces s.spaceOrder },
   created.foldl (fun h e => hostInsert h e.1 e.2) host,
   { importedFromObsidian := syncImported snap s.spaces,
     createdInObsidian := created.map Prod.fst,
     conflicts := syncConflicts snap s.spaces,
     errors := syncErrors snap createOk sp })

/-! ## Deletion detection (src/utils/deletion-detection-utils.ts) -/

/-- Candidate list of detectAndHandleWorkspaceDeletions: every store
identifier except the reserved default one that is missing from the host
snapshot, in iteration order. -/
def detectDeletedWorkspaces (snap : List (String × String)) :
    List (String × SpaceConfig) → List String
  | [] => []
  | (sid, _) :: rest =>
    if sid = "default" then detectDeletedWorkspaces snap rest
    else if hostHas snap sid then detectDeletedWorkspaces snap rest
    else sid :: detectDeletedWorkspaces snap rest

/-- Whether detectAndHandleWorkspaceDeletions reports the active
identifier among the candidates (currentWorkspaceDeleted). -/
def detectCurrentDeleted (snap : List (String × String)) (s : ContextWorkspacesSettings) : Bool :=
  decide (s.currentSpaceId ∈ detectDeletedWorkspaces snap s.spaces)

/-- Per-identifier body of the removeDeletedWorkspaces loop: delete the
identifier from the spaces map and splice it out of the order. -/
def removeDeletedStep (acc : ContextWorkspacesSettings) (wid : String) :
    ContextWorkspacesSettings :=
  { acc with spaces := adel acc.spaces wid, spaceOrder := orderErase acc.spaceOrder wid }

/-- removeDeletedWorkspaces: delete each listed identifier from the spaces
map and splice it out of the order; the lastSeen map and the active
identifier are not touched here. -/
def removeDeletedWorkspaces (s : ContextWorkspacesSettings) (deleted : List String) :
    ContextWorkspacesSettings :=
  deleted.foldl removeDeletedStep s

/-- switchToFirstWorkspace: move the active identifier to the first entry
of the order when that entry is truthy and differs from the current one. -/
def switchToFirstWorkspace (s : ContextWorkspacesSettings) : ContextWorkspacesSettings :=
  match s.spaceOrder.head? with
  | none => s
  | some firstSpaceId =>
    if firstSpaceId ≠ "" ∧ s.currentSpaceId ≠ firstSpaceId then
      { s with currentSpaceId := firstSpaceId }
    else s

/-! ## Workspace-change handler (src/main.ts, handleWorkspaceChange)

Date.now() is a Nat parameter; the synchronous re-query of the host
registry performed for the false-positive guard can observe a different
registry state than the snapshot and is an oracle (true when the registry
holds the identifier at re-check time, or when the re-check itself threw,
both of which skip the deletion). -/

/-- Value truthiness of a lastSeen read: workspaceLastSeen[sid] used as a
condition is false when absent or zero. -/
def lastSeenRecheck (ls : List (String × Nat)) (now : Nat) (sid : String) : Bool :=
  match alookup ls sid with
  | none => true
  | some t => t = 0 ∨ now - t < 5000

/-- Upsert of a lastSeen timestamp (workspaceLastSeen[sid] = Date.now()). -/
def lastSeenSet (ls : List (String × Nat)) (sid : String) (now : Nat) : List (String × Nat) :=
  if (alookup ls sid).isSome then aset ls sid now else ls ++ [(sid, now)]

/-- Deleted-workspace list computed by the detection loop of
handleWorkspaceChange: a present identifier refreshes its lastSeen
timestamp; a missing identifier whose lastSeen is absent, zero or within
the five-second grace window is re-queried once and skipped when found,
and is pushed otherwise; a missing identifier with a stale lastSeen is
pushed directly. -/
def hwcDetectDeleted (snap : List (String × String)) (reQueryFound : String → Bool)
    (now : Nat) : List (String × SpaceConfig) → List (String × Nat) → List String
  | [], _ => []
  | (sid, _) :: rest, ls =>
    if hostHas snap sid then hwcDetectDeleted snap reQueryFound now rest (lastSeenSet ls sid now)
    else if lastSeenRecheck ls now sid ∧ reQueryFound sid then
      hwcDetectDeleted snap reQueryFound now rest ls
    else sid :: hwcDetectDeleted snap reQueryFound now rest ls

/-- Updated lastSeen map of the same loop (present identifiers stamped
with now). -/
def hwcLastSeen (snap : List (String × String)) (now : Nat) :
    List (String × SpaceConfig) → List (String × Nat) → List (String × Nat)
  | [], ls => ls
  | (sid, _) :: rest, ls =>
    if hostHas snap sid then hwcLastSeen snap now rest (lastSeenSet ls sid now)
    else hwcLastSeen snap now rest ls

/-- Per-identifier body of the handleWorkspaceChange removal loop: delete
the identifier from spaces, splice it out of the order, and delete its
lastSeen entry when that entry is truthy. -/
def hwcRemoveStep (acc : ContextWorkspacesSettings) (wid : String) :
    ContextWorkspacesSettings :=
  { acc with
    spaces := adel acc.spaces wid,
    spaceOrder := orderErase acc.spaceOrder wid,
    workspaceLastSeen :=
      match alookup acc.workspaceLastSeen wid with
      | some t => if t ≠ 0 then adel acc.workspaceLastSeen wid else acc.workspaceLastSeen
      | none => acc.workspaceLastSeen }

/-- Removal phase of handleWorkspaceChange: run the removal loop over the
detected identifiers; when the active identifier was among the deletions
the active identifier is set to the literal default identifier. -/
def hwcRemove (s : ContextWorkspacesSettings) (deleted : List String)
    (currentDeleted : Bool) : ContextWorkspacesSettings :=
  let s₂ := deleted.foldl hwcRemoveStep s
  if currentDeleted then { s₂ with currentSpaceId := "default" } else s₂

/-! ## Space identifier generation (src/utils/space-utils.ts) -/

/-- Candidate identifier sequence of the generateSpaceId while loop: the
base itself, then base-1, base-2, and so on. -/
def spaceIdCandidate (base : String) : Nat → String
  | 0 => base
  | n + 1 => base ++ "-" ++ Nat.repr (n + 1)

/-- The while loop of generateSpaceId: walk the candidate sequence until a
candidate is not an existing key.  The JS loop is unbounded; one more
trial than there are keys always suffices (genLoop_not_mem below), so the
fuel never runs out on the call made by generateSpaceId. -/
def genLoop (base : String) (keys : List String) : Nat → Nat → String
  | 0, counter => spaceIdCandidate base counter
  | fuel + 1, counter =>
    if spaceIdCandidate base counter ∈ keys then genLoop base keys fuel (counter + 1)
    else spaceIdCandidate base counter

/-- Lower-case a character and replace anything outside the lower-case
ASCII letters and digits by a dash, as the regexp replace in
generateSpaceId does after toLowerCase. -/
def sanitizeChar (c : Char) : Char :=
  let c₂ := c.toLower
  if ('a' ≤ c₂ ∧ c₂ ≤ 'z') ∨ ('0' ≤ c₂ ∧ c₂ ≤ '9') then c₂ else '-'

/-- Sanitized base identifier derived from a space name. -/
def sanitizeBase (name : String) : String :=
  String.mk (name.data.map sanitizeChar)

/-- generateSpaceId: an empty or blank name uses the fixed base, otherwise
the sanitized name; then the first free candidate is taken. -/
def generateSpaceId (name : String) (spaces : List (String × SpaceConfig)) : String :=
  if name = "" ∨ name.trim = "" then
    genLoop "space" (akeys spaces) (spaces.length + 1) 0
  else
    genLoop (sanitizeBase name) (akeys spaces) (spaces.length + 1) 0

/-! ## Store operations of src/main.ts -/

/-- Parsed creation data handed to createNewSpace by the modal (the JSON
branch of parseSpaceData: theme already trimmed-or-undefined). -/
structure ParsedSpaceData : Type where
  name : String
  icon : String
  description : Option String
  theme : Option String
  themeMode : Option ThemeMode
deriving DecidableEq, Repr

/-- Store effect of createNewSpace: generate an identifier from the name,
add the record under it (live mode, theme as given, mode defaulting to
system) and push the identifier onto the order. -/
def createNewSpaceStore (s : ContextWorkspacesSettings) (d : ParsedSpaceData) :
    ContextWorkspacesSettings :=
  let sid := generateSpaceId d.name s.spaces
  { s with
    spaces := aupsert s.spaces sid
      ⟨d.name, d.icon, true, d.theme, some (d.themeMode.getD ThemeMode.system), d.description, none⟩,
    spaceOrder := s.spaceOrder ++ [sid] }

/-- Store effect of deleteSpace: refuse when no other identifier remains
in the order; otherwise, when deleting the active space, first switch to
the first remaining identifier (a no-op when a switch is already in
flight, mirroring the switchToSpace guard), then drop the space and
filter the order. -/
def deleteSpaceStore (switching : Option String) (s : ContextWorkspacesSettings)
    (sid : String) : ContextWorkspacesSettings :=
  let remaining := s.spaceOrder.filter (fun id => id ≠ sid)
  if remaining.length = 0 then s
  else
    let s₂ :=
      if sid = s.currentSpaceId then
        match remaining with
        | [] => s
        | first :: _ =>
          if switching.isSome ∨ first = s.currentSpaceId then s
          else { s with currentSpaceId := first }
      else s
    { s₂ with
      spaces := adel s₂.spaces sid,
      spaceOrder := s₂.spaceOrder.filter (fun id => id ≠ sid) }

/-! ## Switch controller and theme coordination
(src/main.ts switchToSpace, src/utils/obsidian-utils.ts theme state)

The mutable world visible to a switch: the settings, the re-entrancy
flag, the host theme and mode currently applied, the module-level one-time
backup of the original host theme and mode, logs of save and load calls to
the host workspace API, and a counter of restoreThemeState invocations
(each invocation is one restoration attempt). -/

structure World : Type where
  settings : ContextWorkspacesSettings
  switchingToSpaceId : Option String
  curTheme : String
  curMode : ThemeMode
  origTheme : Option String
  origMode : Option ThemeMode
  savedSpaces : List String
  loadedSpaces : List String
  restoreCalls : Nat
deriving DecidableEq, Repr

/-- JS truthiness of the optional per-space theme string. -/
def themeTruthy : Option String → Bool
  | none => false
  | some t => t ≠ ""

/-- JS truthiness of the optional theme mode (every mode value is a
non-empty string, so presence is truthiness). -/
def modeTruthy : Option ThemeMode → Bool
  | none => false
  | some _ => true

/-- backupThemeState: capture the current theme and mode into the
module-level backup, each only when not yet captured. -/
def backupThemeState (w : World) : World :=
  let w₂ := if w.origTheme = none then { w with origTheme := some w.curTheme } else w
  if w₂.origMode = none then { w₂ with origMode := some w₂.curMode } else w₂

/-- clearThemeStateBackup: drop both backups (plugin teardown). -/
def clearThemeStateBackup (w : World) : World :=
  { w with origTheme := none, origMode := none }

/-- restoreThemeState: when either backup is truthy, set the host theme
and mode back to the backed-up originals (each only when different).  The
ok flag stands for the host theme API not throwing; every invocation
counts as one restoration attempt. -/
def restoreThemeState (ok : Bool) (w : World) : World :=
  let w₀ := { w with restoreCalls := w.restoreCalls + 1 }
  if ¬ok then w₀
  else if ¬themeTruthy w₀.origTheme ∧ ¬modeTruthy w₀.origMode then w₀
  else
    let w₂ :=
      match w₀.origTheme with
      | some t => if t ≠ "" ∧ w₀.curTheme ≠ t then { w₀ with curTheme := t } else w₀
      | none => w₀
    match w₂.origMode with
    | some m => if w₂.curMode ≠ m then { w₂ with curMode := m } else w₂
    | none => w₂

/-- applySpaceTheme: a defined theme is applied after trimming, an empty
or blank one standing for the original host theme (falling back to the
current one when no truthy backup exists); a defined mode is applied when
different from the current one. -/
def applySpaceTheme (w : World) (theme : Option String) (themeMode : Option ThemeMode) :
    World :=
  let w₂ :=
    match theme with
    | none => w
    | some th =>
      let toApply :=
        if th.trim = "" then
          match w.origTheme with
          | some o => if o ≠ "" then o else w.curTheme
          | none => w.curTheme
        else th.trim
      if w.curTheme ≠ toApply then { w with curTheme := toApply } else w
  match themeMode with
  | none => w₂
  | some m => if w₂.curMode ≠ m then { w₂ with curMode := m } else w₂

/-- Which boundary calls of a switch fail: persisting the settings
document (the only unguarded await of the body, reaching the outer
catch), applying a space theme, and restoring the theme backup. -/
structure FailureSpec : Type where
  saveSettingsFails : Bool
  applyThemeFails : Bool
  restoreFails : Bool
deriving DecidableEq, Repr

/-- A failure-free run. -/
def noFail : FailureSpec := ⟨false, false, false⟩

/-- saveCurrentSpaceState: save the outgoing layout under the active
identifier when that space exists and is in live mode; save errors are
caught internally and never propagate. -/
def saveCurrentSpaceState (w : World) : World :=
  match alookup w.settings.spaces w.settings.currentSpaceId with
  | some cfg =>
    if cfg.autoSave then { w with savedSpaces := w.savedSpaces ++ [w.settings.currentSpaceId] }
    else w
  | none => w

/-- Activation commit of a switch: set the active identifier in the
settings (the in-memory assignment preceding the saveSettings await). -/
def switchCommit (sid : String) (w : World) : World :=
  { w with settings := { w.settings with currentSpaceId := sid } }

/-- Theme step of a switch: a target space defining a truthy theme or a
mode gets it applied (with restoration fallback when application fails);
any other target — including a missing one — restores the original host
theme.  All errors are caught inline. -/
def switchThemeStep (fail : FailureSpec) (sid : String) (w : World) : World :=
  match alookup w.settings.spaces sid with
  | some cfg =>
    if themeTruthy cfg.theme ∨ modeTruthy cfg.themeMode then
      if fail.applyThemeFails then restoreThemeState (!fail.restoreFails) w
      else applySpaceTheme w cfg.theme cfg.themeMode
    else restoreThemeState (!fail.restoreFails) w
  | none => restoreThemeState (!fail.restoreFails) w

/-- loadSpaceState: load the incoming layout when the target space exists;
load errors are caught internally. -/
def loadSpaceState (sid : String) (w : World) : World :=
  match alookup w.settings.spaces sid with
  | some _ => { w with loadedSpaces := w.loadedSpaces ++ [sid] }
  | none => w

/-- The finally block of switchToSpace: clear the re-entrancy flag. -/
def switchCleanup (w : World) : World :=
  { w with switchingToSpaceId := none }

/-- switchToSpace: guarded no-op when a switch is in flight or the target
is already active; otherwise set the flag, save outgoing state, commit the
activation (a saveSettings failure reaches the outer catch, which attempts
theme restoration), apply or restore the theme, load incoming state, and
always clear the flag in the finally block. -/
def switchToSpace (fail : FailureSpec) (w : World) (sid : String) : World :=
  if w.switchingToSpaceId.isSome ∨ sid = w.settings.currentSpaceId then w
  else
    let w₀ := { w with switchingToSpaceId := some sid }
    let w₁ := saveCurrentSpaceState w₀
    let w₂ := switchCommit sid w₁
    if fail.saveSettingsFails then switchCleanup (restoreThemeState (!fail.restoreFails) w₂)
    else switchCleanup (loadSpaceState sid (switchThemeStep fail sid w₂))

/-- Micro-steps of the failure-free switch body, indexed by the suspension
points of the async body (after the flag is set): save outgoing, commit,
theme, load. -/
def switchStepAt (sid : String) : Nat → World → World
  | 0, w => saveCurrentSpaceState w
  | 1, w => switchCommit sid w
  | 2, w => switchThemeStep noFail sid w
  | _, w => loadSpaceState sid w

/-- World state of an in-flight failure-free switch at suspension point k
(k micro-steps done, flag set). -/
def switchPartial (w : World) (sid : String) : Nat → World
  | 0 => { w with switchingToSpaceId := some sid }
  | k + 1 => switchStepAt sid k (switchPartial w sid k)

/-- Resumption of an in-flight failure-free switch from suspension point
k: run the remaining micro-steps and the finally block. -/
def switchResume (sid : String) (k : Nat) (w : World) : World :=
  match k with
  | 0 => switchCleanup (switchStepAt sid 3 (switchStepAt sid 2 (switchStepAt sid 1 (switchStepAt sid 0 w))))
  | 1 => switchCleanup (switchStepAt sid 3 (switchStepAt sid 2 (switchStepAt sid 1 w)))
  | 2 => switchCleanup (switchStepAt sid 3 (switchStepAt sid 2 w))
  | 3 => switchCleanup (switchStepAt sid 3 w)
  | _ => switchCleanup w

/-! ## Frame lemmas for the switch micro-steps -/

theorem restoreThemeState_frame (ok : Bool) (w : World) :
    (restoreThemeState ok w).settings = w.settings ∧
    (restoreThemeState ok w).switchingToSpaceId = w.switchingToSpaceId ∧
    (restoreThemeState ok w).origTheme = w.origTheme ∧
    (restoreThemeState ok w).origMode = w.origMode ∧
    (restoreThemeState ok w).restoreCalls = w.restoreCalls + 1 := by
  refine ⟨?_, ?_, ?_, ?_, ?_⟩ <;>
    (simp only [restoreThemeState]; repeat' split) <;> rfl

theorem applySpaceTheme_frame (w : World) (theme : Option String) (themeMode : Option ThemeMode) :
    (applySpaceTheme w theme themeMode).settings = w.settings ∧
    (applySpaceTheme w theme themeMode).switchingToSpaceId = w.switchingToSpaceId ∧
    (applySpaceTheme w theme themeMode).origTheme = w.origTheme ∧
    (applySpaceTheme w theme themeMode).origMode = w.origMode ∧
    (applySpaceTheme w theme themeMode).restoreCalls = w.restoreCalls := by
  refine ⟨?_, ?_, ?_, ?_, ?_⟩ <;>
    (simp only [applySpaceTheme]; repeat' split) <;> rfl

theorem switchThemeStep_frame (fail : FailureSpec) (sid : String) (w : World) :
    (switchThemeStep fail sid w).settings = w.settings ∧
    (switchThemeStep fail sid w).switchingToSpaceId = w.switchingToSpaceId ∧
    (switchThemeStep fail sid w).origTheme = w.origTheme ∧
    (switchThemeStep fail sid w).origMode = w.origMode := by
  unfold switchThemeStep
  split
  · split
    · split
      · exact ⟨(restoreThemeState_frame _ _).1, (restoreThemeState_frame _ _).2.1,
          (restoreThemeState_frame _ _).2.2.1, (restoreThemeState_frame _ _).2.2.2.1⟩
      · exact ⟨(applySpaceTheme_frame _ _ _).1, (applySpaceTheme_frame _ _ _).2.1,
          (applySpaceTheme_frame _ _ _).2.2.1, (applySpaceTheme_frame _ _ _).2.2.2.1⟩
    · exact ⟨(restoreThemeState_frame _ _).1, (restoreThemeState_frame _ _).2.1,
        (restoreThemeState_frame _ _).2.2.1, (restoreThemeState_frame _ _).2.2.2.1⟩
  · exact ⟨(restoreThemeState_frame _ _).1, (restoreThemeState_frame _ _).2.1,
      (restoreThemeState_frame _ _).2.2.1, (restoreThemeState_frame _ _).2.2.2.1⟩

theorem saveCurrentSpaceState_frame (w : World) :
    (saveCurrentSpaceState w).settings = w.settings ∧
    (saveCurrentSpaceState w).switchingToSpaceId = w.switchingToSpaceId ∧
    (saveCurrentSpaceState w).origTheme = w.origTheme ∧
    (saveCurrentSpaceState w).origMode = w.origMode ∧
    (saveCurrentSpaceState w).curTheme = w.curTheme ∧
    (saveCurrentSpaceState w).curMode = w.curMode ∧
    (saveCurrentSpaceState w).restoreCalls = w.restoreCalls := by
  unfold saveCurrentSpaceState
  split
  · split <;> simp_all
  · simp_all

theorem loadSpaceState_frame (sid : String) (w : World) :
    (loadSpaceState sid w).settings = w.settings ∧
    (loadSpaceState sid w).switchingToSpaceId = w.switchingToSpaceId ∧
    (loadSpaceState sid w).origTheme = w.origTheme ∧
    (loadSpaceState sid w).origMode = w.origMode ∧
    (loadSpaceState sid w).curTheme = w.curTheme ∧
    (loadSpaceState sid w).curMode = w.curMode ∧
    (loadSpaceState sid w).restoreCalls = w.restoreCalls := by
  unfold loadSpaceState
  split <;> simp_all

theorem switchStepAt_flag (sid : String) (k : Nat) (w : World) :
    (switchStepAt sid k w).switchingToSpaceId = w.switchingToSpaceId := by
  match k with
  | 0 => exact (saveCurrentSpaceState_frame w).2.1
  | 1 => rfl
  | 2 => exact (switchThemeStep_frame noFail sid w).2.1
  | (n + 3) => exact (loadSpaceState_frame sid w).2.1

theorem switchPartial_flag (w : World) (sid : String) : ∀ k : Nat,
    (switchPartial w sid k).switchingToSpaceId = some sid
  | 0 => rfl
  | k + 1 => by rw [switchPartial, switchStepAt_flag, switchPartial_flag w sid k]

theorem switchThemeStep_calls_of_applyFails (fail : FailureSpec) (sid : String) (w : World)
    (h : fail.applyThemeFails = true) :
    (switchThemeStep fail sid w).restoreCalls = w.restoreCalls + 1 := by
  unfold switchThemeStep
  repeat' split
  all_goals first
    | exact (restoreThemeState_frame _ _).2.2.2.2
    | simp_all

theorem switchToSpace_guard_false {w : World} {sid : String}
    (hidle : w.switchingToSpaceId = none) (hneq : sid ≠ w.settings.currentSpaceId) :
    ¬(w.switchingToSpaceId.isSome = true ∨ sid = w.settings.currentSpaceId) := by
  simp [hidle, hneq]

theorem switchToSpace_noFail_final (w : World) (sid : String)
    (hidle : w.switchingToSpaceId = none) (hneq : sid ≠ w.settings.currentSpaceId) :
    (switchToSpace noFail w sid).settings.currentSpaceId = sid ∧
    (switchToSpace noFail w sid).switchingToSpaceId = none := by
  unfold switchToSpace
  rw [if_neg (switchToSpace_guard_false hidle hneq)]
  simp only [noFail, Bool.false_eq_true, if_false]
  constructor
  · show (loadSpaceState sid (switchThemeStep ⟨false, false, false⟩ sid
      (switchCommit sid (saveCurrentSpaceState { w with switchingToSpaceId := some sid })))).settings.currentSpaceId = sid
    rw [(loadSpaceState_frame _ _).1, (switchThemeStep_frame _ _ _).1]
    rfl
  · rfl

/-- C7: a switchToSpace call arriving while a switch is in flight, or
targeting the already-active identifier, changes nothing at all; in
particular a second overlapping call to the same target, at any suspension
point of the first, is a no-op, the interleaved execution equals the
single uninterrupted switch, and the final state has the target active
with the guard back to idle — exactly one completed switch. -/
theorem c7_switch_no_reentrant_duplicate (w : World) (sid : String) (k : Nat)
    (hk : k ≤ 4) (hidle : w.switchingToSpaceId = none)
    (hneq : sid ≠ w.settings.currentSpaceId) :
    (∀ (w₂ : World) (sid₂ : String), (w₂.switchingToSpaceId).isSome = true →
      switchToSpace noFail w₂ sid₂ = w₂)
    ∧ (∀ w₂ : World, switchToSpace noFail w₂ w₂.settings.currentSpaceId = w₂)
    ∧ switchToSpace noFail (switchPartial w sid k) sid = switchPartial w sid k
    ∧ switchResume sid k (switchToSpace noFail (switchPartial w sid k) sid)
        = switchToSpace noFail w sid
    ∧ (switchToSpace noFail w sid).settings.currentSpaceId = sid
    ∧ (switchToSpace noFail w sid).switchingToSpaceId = none := by
  have hbusy : ∀ (w₂ : World) (sid₂ : String), (w₂.switchingToSpaceId).isSome = true →
      switchToSpace noFail w₂ sid₂ = w₂ := by
    intro w₂ sid₂ h
    unfold switchToSpace
    rw [if_pos (Or.inl h)]
  have hnoop : switchToSpace noFail (switchPartial w sid k) sid = switchPartial w sid k :=
    hbusy _ _ (by rw [switchPartial_flag]; rfl)
  refine ⟨hbusy, ?_, hnoop, ?_, (switchToSpace_noFail_final w sid hidle hneq).1,
    (switchToSpace_noFail_final w sid hidle hneq).2⟩
  · intro w₂
    unfold switchToSpace
    rw [if_pos (Or.inr rfl)]
  · rw [hnoop]
    unfold switchToSpace
    rw [if_neg (switchToSpace_guard_false hidle hneq)]
    simp only [noFail, Bool.false_eq_true, if_false]
    interval_cases k <;> rfl

/-- C7 witness at a concrete two-space store, interrupted at the second
suspension point. -/
theorem c7_witness :
    (let s : ContextWorkspacesSettings :=
      ⟨[("a", mkSpace "Alpha" "📄" true), ("b", mkSpace "Beta" "📄" false)], ["a", "b"], "a", []⟩
     let w : World := ⟨s, none, "obsidian", ThemeMode.system, some "obsidian",
       some ThemeMode.system, [], [], 0⟩
     switchToSpace noFail (switchPartial w "b" 2) "b" = switchPartial w "b" 2
     ∧ (switchToSpace noFail w "b").settings.currentSpaceId = "b"
     ∧ (switchToSpace noFail w "b").switchingToSpaceId = none) := by
  have h := c7_switch_no_reentrant_duplicate
    ⟨⟨[("a", mkSpace "Alpha" "📄" true), ("b", mkSpace "Beta" "📄" false)], ["a", "b"], "a", []⟩,
      none, "obsidian", ThemeMode.system, some "obsidian", some ThemeMode.system, [], [], 0⟩
    "b" 2 (by decide) rfl (by decide)
  exact ⟨h.2.2.1, h.2.2.2.2.1, h.2.2.2.2.2⟩

/-- C8: every switchToSpace invocation leaves the re-entrancy flag as it
found it — in particular an invocation that entered Switching always ends
Idle through the guaranteed cleanup path — and any invocation that
actually starts and hits a failure (the unguarded settings persist, or the
theme application) performs at least one theme-restoration attempt before
returning. -/
theorem c8_switch_failure_recovery :
    ∀ (fail : FailureSpec) (w : World) (sid : String),
      (switchToSpace fail w sid).switchingToSpaceId = w.switchingToSpaceId ∧
      (w.switchingToSpaceId = none → sid ≠ w.settings.currentSpaceId →
        (fail.saveSettingsFails = true ∨ fail.applyThemeFails = true) →
        w.restoreCalls < (switchToSpace fail w sid).restoreCalls) := by
  intro fail w sid
  constructor
  · by_cases hg : (w.switchingToSpaceId.isSome = true ∨ sid = w.settings.currentSpaceId)
    · unfold switchToSpace
      rw [if_pos hg]
    · have hflag : w.switchingToSpaceId = none := by
        cases h : w.switchingToSpaceId with
        | none => rfl
        | some x => exact absurd (Or.inl (by rw [h]; rfl)) hg
      unfold switchToSpace
      rw [if_neg hg, hflag]
      split <;> rfl
  · intro hidle hneq hfail
    unfold switchToSpace
    rw [if_neg (switchToSpace_guard_false hidle hneq)]
    have hsave : (switchCommit sid (saveCurrentSpaceState
        { w with switchingToSpaceId := some sid })).restoreCalls = w.restoreCalls := by
      show (saveCurrentSpaceState { w with switchingToSpaceId := some sid }).restoreCalls
        = w.restoreCalls
      exact (saveCurrentSpaceState_frame _).2.2.2.2.2.2
    by_cases hs : fail.saveSettingsFails = true
    · rw [if_pos hs]
      show (restoreThemeState (!fail.restoreFails) _).restoreCalls > _
      rw [(restoreThemeState_frame _ _).2.2.2.2, hsave]
      omega
    · rw [if_neg hs]
      have ha : fail.applyThemeFails = true := by
        rcases hfail with h | h
        · exact absurd h hs
        · exact h
      show (loadSpaceState sid (switchThemeStep fail sid _)).restoreCalls > _
      rw [(loadSpaceState_frame _ _).2.2.2.2.2.2,
        switchThemeStep_calls_of_applyFails fail sid _ ha, hsave]
      omega

/-- C8 witness: a failing settings persist on a concrete switch still ends
idle and attempted a restoration. -/
theorem c8_witness :
    (let s : ContextWorkspacesSettings :=
      ⟨[("a", mkSpace "Alpha" "📄" false), ("b", mkSpace "Beta" "📄" false)], ["a", "b"], "a", []⟩
     let w : World := ⟨s, none, "obsidian", ThemeMode.system, some "obsidian",
       some ThemeMode.system, [], [], 0⟩
     (switchToSpace ⟨true, false, false⟩ w "b").switchingToSpaceId = none
     ∧ 0 < (switchToSpace ⟨true, false, false⟩ w "b").restoreCalls) := by
  have h := c8_switch_failure_recovery ⟨true, false, false⟩
    ⟨⟨[("a", mkSpace "Alpha" "📄" false), ("b", mkSpace "Beta" "📄" false)], ["a", "b"], "a", []⟩,
      none, "obsidian", ThemeMode.system, some "obsidian", some ThemeMode.system, [], [], 0⟩
    "b"
  exact ⟨h.1, h.2 rfl (by decide) (Or.inl rfl)⟩

/-- C9: the one-time theme backup is captured only when empty and is never
touched by a switch, and switching to a space that defines neither a
truthy theme nor a theme mode always ends with the backed-up original host
theme and mode applied, whatever theme a previous switch had applied. -/
theorem c9_original_theme_restored :
    (∀ w : World, w.origTheme.isSome = true → (backupThemeState w).origTheme = w.origTheme)
    ∧ (∀ w : World, w.origMode.isSome = true → (backupThemeState w).origMode = w.origMode)
    ∧ (∀ w : World, w.origTheme = none → (backupThemeState w).origTheme = some w.curTheme)
    ∧ (∀ w : World, w.origMode = none → (backupThemeState w).origMode = some w.curMode)
    ∧ (∀ w : World, (clearThemeStateBackup w).origTheme = none
        ∧ (clearThemeStateBackup w).origMode = none)
    ∧ (∀ (fail : FailureSpec) (w : World) (sid : String),
        (switchToSpace fail w sid).origTheme = w.origTheme
        ∧ (switchToSpace fail w sid).origMode = w.origMode)
    ∧ (∀ (fail : FailureSpec) (w : World) (sid : String) (cfg : SpaceConfig)
        (t : String) (m : ThemeMode),
        w.switchingToSpaceId = none → sid ≠ w.settings.currentSpaceId →
        alookup w.settings.spaces sid = some cfg →
        themeTruthy cfg.theme = false → cfg.themeMode = none →
        w.origTheme = some t → t ≠ "" → w.origMode = some m →
        fail.restoreFails = false →
        (switchToSpace fail w sid).curTheme = t
        ∧ (switchToSpace fail w sid).curMode = m) := by
  refine ⟨?_, ?_, ?_, ?_, ?_, ?_, ?_⟩
  · intro w h
    have h₂ : ¬(w.origTheme = none) := by
      intro he
      rw [he] at h
      exact absurd h (by decide)
    simp only [backupThemeState, if_neg h₂]
    split <;> rfl
  · intro w h
    simp only [backupThemeState]
    split <;> split <;> simp_all
  · intro w h
    simp only [backupThemeState, if_pos h]
    split <;> rfl
  · intro w h
    simp only [backupThemeState]
    repeat' split
    all_goals simp_all
  · intro w
    exact ⟨rfl, rfl⟩
  · intro fail w sid
    by_cases hg : (w.switchingToSpaceId.isSome = true ∨ sid = w.settings.currentSpaceId)
    · unfold switchToSpace
      rw [if_pos hg]
      exact ⟨rfl, rfl⟩
    · unfold switchToSpace
      rw [if_neg hg]
      have hsave := saveCurrentSpaceState_frame { w with switchingToSpaceId := some sid }
      split
      · constructor
        · show (restoreThemeState (!fail.restoreFails) _).origTheme = w.origTheme
          rw [(restoreThemeState_frame _ _).2.2.1]
          exact hsave.2.2.1
        · show (restoreThemeState (!fail.restoreFails) _).origMode = w.origMode
          rw [(restoreThemeState_frame _ _).2.2.2.1]
          exact hsave.2.2.2.1
      · constructor
        · show (loadSpaceState sid (switchThemeStep fail sid _)).origTheme = w.origTheme
          rw [(loadSpaceState_frame _ _).2.2.1, (switchThemeStep_frame _ _ _).2.2.1]
          exact hsave.2.2.1
        · show (loadSpaceState sid (switchThemeStep fail sid _)).origMode = w.origMode
          rw [(loadSpaceState_frame _ _).2.2.2.1, (switchThemeStep_frame _ _ _).2.2.2]
          exact hsave.2.2.2.1
  · intro fail w sid cfg t m hidle hneq hcfg htheme hmode horig ht hmode₂ hrf
    unfold switchToSpace
    rw [if_neg (switchToSpace_guard_false hidle hneq)]
    have hsave := saveCurrentSpaceState_frame { w with switchingToSpaceId := some sid }
    have hmid : (switchCommit sid (saveCurrentSpaceState
        { w with switchingToSpaceId := some sid })).origTheme = some t := by
      show (saveCurrentSpaceState _).origTheme = some t
      rw [hsave.2.2.1]
      exact horig
    have hmidm : (switchCommit sid (saveCurrentSpaceState
        { w with switchingToSpaceId := some sid })).origMode = some m := by
      show (saveCurrentSpaceState _).origMode = some m
      rw [hsave.2.2.2.1]
      exact hmode₂
    have hrestore : ∀ w₂ : World, w₂.origTheme = some t → w₂.origMode = some m →
        (restoreThemeState true w₂).curTheme = t ∧ (restoreThemeState true w₂).curMode = m := by
      intro w₂ h₁ h₂
      obtain ⟨se, fl, ct, cm, ot, om, sv, ld, rc⟩ := w₂
      simp only at h₁ h₂
      subst h₁
      subst h₂
      by_cases hct : ct = t <;> by_cases hcm : cm = m <;>
        simp [restoreThemeState, themeTruthy, modeTruthy, ht, hct, hcm]
    have hok : (!fail.restoreFails) = true := by rw [hrf]; rfl
    split
    · show ((restoreThemeState (!fail.restoreFails) _).curTheme = t
        ∧ (restoreThemeState (!fail.restoreFails) _).curMode = m)
      rw [hok]
      exact hrestore _ hmid hmidm
    · have hcfg₂ : alookup (switchCommit sid (saveCurrentSpaceState
          { w with switchingToSpaceId := some sid })).settings.spaces sid = some cfg := by
        show alookup (saveCurrentSpaceState { w with switchingToSpaceId := some sid }).settings.spaces sid = some cfg
        rw [hsave.1]
        exact hcfg
      have htheme₂ : (switchThemeStep fail sid (switchCommit sid (saveCurrentSpaceState
          { w with switchingToSpaceId := some sid }))) = restoreThemeState (!fail.restoreFails)
          (switchCommit sid (saveCurrentSpaceState { w with switchingToSpaceId := some sid })) := by
        unfold switchThemeStep
        rw [hcfg₂]
        simp [htheme, hmode, modeTruthy]
      show ((loadSpaceState sid (switchThemeStep fail sid _)).curTheme = t
        ∧ (loadSpaceState sid (switchThemeStep fail sid _)).curMode = m)
      rw [(loadSpaceState_frame _ _).2.2.2.2.1, (loadSpaceState_frame _ _).2.2.2.2.2.1,
        htheme₂, hok]
      exact hrestore _ hmid hmidm

/-- C9 witness: after a switch that applied a custom theme, switching to a
space with no overrides restores the captured original. -/
theorem c9_witness :
    (let s : ContextWorkspacesSettings :=
      ⟨[("a", ⟨"Alpha", "📄", false, some "minimal", some ThemeMode.dark, none, none⟩),
        ("b", mkSpace "Beta" "📄" false)], ["a", "b"], "a", []⟩
     let w₀ : World := ⟨s, none, "minimal", ThemeMode.dark, some "obsidian",
       some ThemeMode.light, [], [], 0⟩
     (switchToSpace noFail w₀ "b").curTheme = "obsidian"
     ∧ (switchToSpace noFail w₀ "b").curMode = ThemeMode.light
     ∧ (backupThemeState w₀).origTheme = some "obsidian") := by
  have h := c9_original_theme_restored
  have h₂ := h.2.2.2.2.2.2 noFail
    ⟨⟨[("a", ⟨"Alpha", "📄", false, some "minimal", some ThemeMode.dark, none, none⟩),
        ("b", mkSpace "Beta" "📄" false)], ["a", "b"], "a", []⟩,
      none, "minimal", ThemeMode.dark, some "obsidian", some ThemeMode.light, [], [], 0⟩
    "b" (mkSpace "Beta" "📄" false) "obsidian" ThemeMode.light rfl (by decide) (by decide)
    rfl rfl rfl (by decide) rfl rfl
  have h₃ := h.1
    ⟨⟨[("a", ⟨"Alpha", "📄", false, some "minimal", some ThemeMode.dark, none, none⟩),
        ("b", mkSpace "Beta" "📄" false)], ["a", "b"], "a", []⟩,
      none, "minimal", ThemeMode.dark, some "obsidian", some ThemeMode.light, [], [], 0⟩
    rfl
  exact ⟨h₂.1, h₂.2, h₃⟩

/-! ## Reconciliation lemmas -/

theorem alookup_append_single_ne {α : Type} (l : List (String × α)) {k k₂ : String} (v : α)
    (h : k ≠ k₂) : alookup (l ++ [(k₂, v)]) k = alookup l k := by
  rw [alookup_append]
  cases hl : alookup l k
  · simp [alookup, Ne.symm h]
  · rfl

theorem hostSnapshot_keys (host : List (String × String)) :
    (hostSnapshot host).map Prod.fst = host.map Prod.fst := by
  simp [hostSnapshot]

theorem syncSpaces_alookup_not_mem (snap : List (String × String))
    (sp : List (String × SpaceConfig)) (wid : String) (h : wid ∉ snap.map Prod.fst) :
    alookup (syncSpaces snap sp) wid = alookup sp wid := by
  induction snap generalizing sp with
  | nil => rfl
  | cons hd rest ih =>
    obtain ⟨w, n⟩ := hd
    have hw : wid ≠ w := by
      intro he
      exact h (by simp [he])
    have h₂ : wid ∉ rest.map Prod.fst := fun hm => h (by simp [hm])
    cases hl : alookup sp w with
    | none =>
      simp only [syncSpaces, hl]
      rw [ih _ h₂, alookup_append_single_ne _ _ hw]
    | some cfg =>
      by_cases hn : cfg.name = n
      · simp only [syncSpaces, hl, if_pos hn]
        exact ih _ h₂
      · simp only [syncSpaces, hl, if_neg hn]
        rw [ih _ h₂, alookup_aset_ne sp _ hw]

theorem syncSpaces_conflict_rename (snap : List (String × String))
    (sp : List (String × SpaceConfig)) (wid hn : String) (cfg : SpaceConfig)
    (hnd : (snap.map Prod.fst).Nodup) (hmem : (wid, hn) ∈ snap)
    (hlook : alookup sp wid = some cfg) (hne : cfg.name ≠ hn) :
    alookup (syncSpaces snap sp) wid = some { cfg with name := hn }
    ∧ (⟨wid, hn, cfg.name, hn⟩ : SyncConflict) ∈ syncConflicts snap sp := by
  induction snap generalizing sp cfg with
  | nil => simp at hmem
  | cons hd rest ih =>
    obtain ⟨w, n⟩ := hd
    rw [List.map_cons, List.nodup_cons] at hnd
    by_cases hw : w = wid
    · subst hw
      have hhn : n = hn := by
        rcases List.mem_cons.1 hmem with h | h
        · injection h with h₁ h₂
          exact h₂.symm
        · exact absurd (List.mem_map_of_mem Prod.fst h) hnd.1
      subst hhn
      constructor
      · simp only [syncSpaces, hlook, if_neg hne]
        rw [syncSpaces_alookup_not_mem rest _ w hnd.1]
        exact alookup_aset_self hlook _
      · simp only [syncConflicts, hlook, if_neg hne]
        exact List.mem_cons_self _ _
    · have hmem₂ : (wid, hn) ∈ rest := by
        rcases List.mem_cons.1 hmem with h | h
        · injection h with h₁ h₂
          exact absurd h₁.symm hw
        · exact h
      have hwne : wid ≠ w := fun he => hw he.symm
      cases hl : alookup sp w with
      | none =>
        have hlook₂ : alookup (sp ++ [(w, importedSpace n)]) wid = some cfg :=
          alookup_append_left hlook _
        have hres := ih _ _ hnd.2 hmem₂ hlook₂ hne
        exact ⟨by simp only [syncSpaces, hl]; exact hres.1,
          by simp only [syncConflicts, hl]; exact hres.2⟩
      | some cfg₂ =>
        by_cases hn₂ : cfg₂.name = n
        · have hres := ih _ _ hnd.2 hmem₂ hlook hne
          exact ⟨by simp only [syncSpaces, hl, if_pos hn₂]; exact hres.1,
            by simp only [syncConflicts, hl, if_pos hn₂]; exact hres.2⟩
        · have hlook₂ : alookup (aset sp w { cfg₂ with name := n }) wid = some cfg := by
            rw [alookup_aset_ne sp _ hwne]
            exact hlook
          have hres := ih _ _ hnd.2 hmem₂ hlook₂ hne
          exact ⟨by simp only [syncSpaces, hl, if_neg hn₂]; exact hres.1,
            by simp only [syncConflicts, hl, if_neg hn₂]; exact List.mem_cons_of_mem _ hres.2⟩

theorem syncSpaces_preserves (snap : List (String × String))
    (sp : List (String × SpaceConfig)) (id : String) (cfg : SpaceConfig)
    (hlook : alookup sp id = some cfg) :
    ∃ nm, alookup (syncSpaces snap sp) id = some { cfg with name := nm } := by
  induction snap generalizing sp cfg with
  | nil =>
    refine ⟨cfg.name, ?_⟩
    simpa [syncSpaces] using hlook
  | cons hd rest ih =>
    obtain ⟨w, n⟩ := hd
    cases hl : alookup sp w with
    | none =>
      simp only [syncSpaces, hl]
      exact ih _ _ (alookup_append_left hlook _)
    | some cfg₂ =>
      by_cases hn : cfg₂.name = n
      · simp only [syncSpaces, hl, if_pos hn]
        exact ih _ _ hlook
      · simp only [syncSpaces, hl, if_neg hn]
        by_cases hw : id = w
        · subst hw
          have he : cfg = cfg₂ := by
            rw [hlook] at hl
            injection hl
          subst he
          exact ih _ { cfg with name := n } (alookup_aset_self hlook _)
        · refine ih _ _ ?_
          rw [alookup_aset_ne sp _ hw]
          exact hlook

theorem syncSpaces_no_conflict_unchanged (snap : List (String × String))
    (sp : List (String × SpaceConfig)) (id : String) (cfg : SpaceConfig)
    (hlook : alookup sp id = some cfg)
    (hnc : ∀ c ∈ syncConflicts snap sp, c.workspaceId ≠ id) :
    alookup (syncSpaces snap sp) id = some cfg := by
  induction snap generalizing sp with
  | nil => simpa [syncSpaces] using hlook
  | cons hd rest ih =>
    obtain ⟨w, n⟩ := hd
    cases hl : alookup sp w with
    | none =>
      simp only [syncSpaces, hl]
      refine ih _ (alookup_append_left hlook _) ?_
      intro c hc
      exact hnc c (by simp only [syncConflicts, hl]; exact hc)
    | some cfg₂ =>
      by_cases hn : cfg₂.name = n
      · simp only [syncSpaces, hl, if_pos hn]
        refine ih _ hlook ?_
        intro c hc
        exact hnc c (by simp only [syncConflicts, hl, if_pos hn]; exact hc)
      · have hw : w ≠ id := by
          have := hnc ⟨w, n, cfg₂.name, n⟩
            (by simp only [syncConflicts, hl, if_neg hn]; exact List.mem_cons_self _ _)
          exact this
        simp only [syncSpaces, hl, if_neg hn]
        refine ih _ ?_ ?_
        · rw [alookup_aset_ne sp _ (Ne.symm hw)]
          exact hlook
        · intro c hc
          exact hnc c
            (by simp only [syncConflicts, hl, if_neg hn]; exact List.mem_cons_of_mem _ hc)

/-- C1: for an identifier present on both sides with diverging names,
reconciliation overwrites the stored name with the host name and records a
conflict carrying both names, the host name being the resolved one. -/
theorem c1_host_name_wins (createOk : String → Bool) (host : List (String × String))
    (s : ContextWorkspacesSettings) (wid hn : String) (cfg : SpaceConfig)
    (hnd : (host.map Prod.fst).Nodup)
    (hsnap : alookup (hostSnapshot host) wid = some hn)
    (hlook : alookup s.spaces wid = some cfg) (hne : cfg.name ≠ hn) :
    alookup (performBidirectionalSync createOk host s).1.spaces wid = some { cfg with name := hn }
    ∧ (⟨wid, hn, cfg.name, hn⟩ : SyncConflict)
        ∈ (performBidirectionalSync createOk host s).2.2.conflicts := by
  have hnd₂ : ((hostSnapshot host).map Prod.fst).Nodup := by
    rw [hostSnapshot_keys]
    exact hnd
  exact syncSpaces_conflict_rename (hostSnapshot host) s.spaces wid hn cfg hnd₂
    (alookup_mem hsnap) hlook hne

/-- C1 witness: stored name A, host name B for the same identifier; after
reconciliation the stored name is B. -/
theorem c1_witness :
    (alookup (performBidirectionalSync (fun _ => true) [("x", "B")]
      ⟨[("x", mkSpace "A" "📄" false)], ["x"], "x", []⟩).1.spaces "x"
        = some (mkSpace "B" "📄" false))
    ∧ (⟨"x", "B", "A", "B"⟩ : SyncConflict)
        ∈ (performBidirectionalSync (fun _ => true) [("x", "B")]
            ⟨[("x", mkSpace "A" "📄" false)], ["x"], "x", []⟩).2.2.conflicts := by
  have h := c1_host_name_wins (fun _ => true) [("x", "B")]
    ⟨[("x", mkSpace "A" "📄" false)], ["x"], "x", []⟩ "x" "B" (mkSpace "A" "📄" false)
    (by decide) (by decide) (by decide) (by decide)
  exact ⟨h.1, h.2⟩

/-- C5: reconciliation never removes a space — every identifier present
before is present after, with every field except possibly the name intact;
an identifier with no recorded conflict keeps its record fully intact. -/
theorem c5_reconcile_never_removes (createOk : String → Bool) (host : List (String × String))
    (s : ContextWorkspacesSettings) (id : String) (cfg : SpaceConfig)
    (hlook : alookup s.spaces id = some cfg) :
    (∃ nm, alookup (performBidirectionalSync createOk host s).1.spaces id
      = some { cfg with name := nm })
    ∧ ((∀ c ∈ (performBidirectionalSync createOk host s).2.2.conflicts, c.workspaceId ≠ id) →
        alookup (performBidirectionalSync createOk host s).1.spaces id = some cfg) := by
  exact ⟨syncSpaces_preserves (hostSnapshot host) s.spaces id cfg hlook,
    fun hnc => syncSpaces_no_conflict_unchanged (hostSnapshot host) s.spaces id cfg hlook hnc⟩

/-- C5 witness: an identifier absent from the host survives reconciliation
untouched. -/
theorem c5_witness :
    alookup (performBidirectionalSync (fun _ => true) [("a", "AlphaRenamed"), ("c", "Gamma")]
      ⟨[("a", mkSpace "Alpha" "📄" false), ("b", mkSpace "Beta" "🏠" true)],
        ["a", "b"], "a", []⟩).1.spaces "b" = some (mkSpace "Beta" "🏠" true) := by
  have h := c5_reconcile_never_removes (fun _ => true) [("a", "AlphaRenamed"), ("c", "Gamma")]
    ⟨[("a", mkSpace "Alpha" "📄" false), ("b", mkSpace "Beta" "🏠" true)], ["a", "b"], "a", []⟩
    "b" (mkSpace "Beta" "🏠" true) (by decide)
  exact h.2 (by decide)

/-! ## Deletion-detection lemmas -/

theorem alookup_lastSeenSet_ne (ls : List (String × Nat)) {sid k : String} (now : Nat)
    (h : sid ≠ k) : alookup (lastSeenSet ls k now) sid = alookup ls sid := by
  unfold lastSeenSet
  split
  · exact alookup_aset_ne ls _ h
  · exact alookup_append_single_ne ls _ h

theorem lastSeenRecheck_lastSeenSet_ne (ls : List (String × Nat)) {sid k : String}
    (now now₂ : Nat) (h : sid ≠ k) :
    lastSeenRecheck (lastSeenSet ls k now₂) now sid = lastSeenRecheck ls now sid := by
  unfold lastSeenRecheck
  rw [alookup_lastSeenSet_ne ls now₂ h]

/-- Membership characterization of the detect-utils candidate list: marked
exactly when a non-default identifier is missing from the snapshot. -/
theorem detectDeletedWorkspaces_mem (snap : List (String × String))
    (sp : List (String × SpaceConfig)) (sid : String) :
    sid ∈ detectDeletedWorkspaces snap sp ↔
      sid ∈ akeys sp ∧ sid ≠ "default" ∧ hostHas snap sid = false := by
  induction sp with
  | nil => simp [detectDeletedWorkspaces]
  | cons hd rest ih =>
    obtain ⟨k, cfg⟩ := hd
    by_cases hdef : k = "default"
    · subst hdef
      rw [detectDeletedWorkspaces, if_pos rfl]
      rw [ih]
      constructor
      · intro h
        exact ⟨List.mem_cons_of_mem _ h.1, h.2⟩
      · intro h
        rcases List.mem_cons.1 h.1 with h₁ | h₁
        · exact absurd h₁ h.2.1
        · exact ⟨h₁, h.2⟩
    · rw [detectDeletedWorkspaces, if_neg hdef]
      by_cases hh : hostHas snap k = true
      · rw [if_pos hh, ih]
        constructor
        · intro h
          exact ⟨List.mem_cons_of_mem _ h.1, h.2⟩
        · intro h
          rcases List.mem_cons.1 h.1 with h₁ | h₁
          · subst h₁
            exact absurd hh (by rw [h.2.2]; exact Bool.false_ne_true)
          · exact ⟨h₁, h.2⟩
      · rw [if_neg hh]
        have hh₂ : hostHas snap k = false := by
          cases hq : hostHas snap k
          · rfl
          · exact absurd hq hh
        constructor
        · intro h
          rcases List.mem_cons.1 h with h₁ | h₁
          · subst h₁
            exact ⟨List.mem_cons_self _ _, hdef, hh₂⟩
          · have := ih.1 h₁
            exact ⟨List.mem_cons_of_mem _ this.1, this.2⟩
        · intro h
          rcases List.mem_cons.1 h.1 with h₁ | h₁
          · subst h₁
            exact List.mem_cons_self _ _
          · exact List.mem_cons_of_mem _ (ih.2 ⟨h₁, h.2⟩)

/-- Membership characterization of the handleWorkspaceChange deleted list
over duplicate-free store keys: an identifier is committed for deletion
exactly when it is missing from the snapshot and either its lastSeen is
present, non-zero and at least five seconds old (no re-check), or the
synchronous re-query fails to find it. -/
theorem hwcDetectDeleted_mem (snap : List (String × String)) (rq : String → Bool)
    (now : Nat) (sp : List (String × SpaceConfig)) (ls : List (String × Nat)) (sid : String)
    (hnd : (akeys sp).Nodup) :
    sid ∈ hwcDetectDeleted snap rq now sp ls ↔
      sid ∈ akeys sp ∧ hostHas snap sid = false ∧
        (lastSeenRecheck ls now sid = false ∨ rq sid = false) := by
  induction sp generalizing ls with
  | nil => simp [hwcDetectDeleted]
  | cons hd rest ih =>
    obtain ⟨k, cfg⟩ := hd
    rw [akeys_cons, List.nodup_cons] at hnd
    by_cases hh : hostHas snap k = true
    · rw [hwcDetectDeleted, if_pos hh]
      by_cases hs : sid = k
      · subst hs
        rw [ih _ hnd.2]
        constructor
        · intro h
          exact absurd h.1 hnd.1
        · intro h
          exact absurd hh (by rw [h.2.1]; exact Bool.false_ne_true)
      · rw [ih _ hnd.2, lastSeenRecheck_lastSeenSet_ne ls now now hs]
        simp [hs]
    · have hh₂ : hostHas snap k = false := by
        cases hq : hostHas snap k
        · rfl
        · exact absurd hq hh
      rw [hwcDetectDeleted, if_neg hh]
      by_cases hg : (lastSeenRecheck ls now k = true ∧ rq k = true)
      · rw [if_pos hg]
        by_cases hs : sid = k
        · subst hs
          rw [ih _ hnd.2]
          constructor
          · intro h
            exact absurd h.1 hnd.1
          · intro h
            rcases h.2.2 with h₂ | h₂
            · exact absurd hg.1 (by rw [h₂]; exact Bool.false_ne_true)
            · exact absurd hg.2 (by rw [h₂]; exact Bool.false_ne_true)
        · rw [ih _ hnd.2]
          simp [hs]
      · rw [if_neg hg]
        by_cases hs : sid = k
        · subst hs
          constructor
          · intro _
            refine ⟨List.mem_cons_self _ _, hh₂, ?_⟩
            by_cases h₁ : lastSeenRecheck ls now sid = true
            · right
              cases hq : rq sid
              · rfl
              · exact absurd ⟨h₁, hq⟩ hg
            · left
              cases hq : lastSeenRecheck ls now sid
              · rfl
              · exact absurd hq h₁
          · intro _
            exact List.mem_cons_self _ _
        · rw [List.mem_cons]
          rw [ih _ hnd.2]
          simp [hs]

/-- The necessary condition asserted by the claim: an identifier is
committed for deletion only when its lastSeen timestamp is absent or at
least the five-second grace window old. -/
def DeletionOnlyWhenStale : Prop :=
  ∀ (snap : List (String × String)) (rq : String → Bool) (now : Nat)
    (sp : List (String × SpaceConfig)) (ls : List (String × Nat)) (sid : String),
    sid ∈ hwcDetectDeleted snap rq now sp ls →
    alookup ls sid = none ∨ 5000 ≤ now - (alookup ls sid).getD 0

/-- C3 counterexample: an identifier missing from the snapshot whose
lastSeen is only one second old is still committed when the synchronous
re-query does not find it, violating the claimed necessary condition. -/
theorem c3_counterexample : ¬DeletionOnlyWhenStale := by
  intro h
  have h₂ := h [] (fun _ => false) 7000 [("x", mkSpace "X" "📄" false)] [("x", 6000)] "x"
    (by decide)
  revert h₂
  decide

/-- C3 amended: the detect-utils pass marks a non-default identifier as a
candidate exactly when it is missing from the snapshot; the
handleWorkspaceChange pass (which applies the grace window) commits a
missing identifier without re-verification only when its lastSeen is
present, non-zero and at least five seconds stale, and otherwise (absent,
zero, or within the window) re-queries the registry once and commits
exactly when the re-query still does not find it. -/
theorem c3_amended_deletion_detection :
    (∀ (snap : List (String × String)) (sp : List (String × SpaceConfig)) (sid : String),
      sid ∈ detectDeletedWorkspaces snap sp ↔
        sid ∈ akeys sp ∧ sid ≠ "default" ∧ hostHas snap sid = false)
    ∧ (∀ (snap : List (String × String)) (rq : String → Bool) (now : Nat)
        (sp : List (String × SpaceConfig)) (ls : List (String × Nat)) (sid : String),
        (akeys sp).Nodup →
        (sid ∈ hwcDetectDeleted snap rq now sp ls ↔
          sid ∈ akeys sp ∧ hostHas snap sid = false ∧
            (lastSeenRecheck ls now sid = false ∨ rq sid = false))) :=
  ⟨detectDeletedWorkspaces_mem,
   fun snap rq now sp ls sid hnd => hwcDetectDeleted_mem snap rq now sp ls sid hnd⟩

/-- C3 witness: both characterizations applied at concrete stores — a
non-default missing identifier is marked, and a stale missing identifier
is committed without re-query. -/
theorem c3_witness :
    "a" ∈ detectDeletedWorkspaces []
      [("default", mkSpace "Default" "📄" false), ("a", mkSpace "A" "📄" false)]
    ∧ "b" ∈ hwcDetectDeleted [] (fun _ => true) 20000
        [("b", mkSpace "B" "📄" false)] [("b", 1000)] := by
  constructor
  · exact (c3_amended_deletion_detection.1 []
      [("default", mkSpace "Default" "📄" false), ("a", mkSpace "A" "📄" false)] "a").2
      (by decide)
  · exact (c3_amended_deletion_detection.2 [] (fun _ => true) 20000
      [("b", mkSpace "B" "📄" false)] [("b", 1000)] "b" (by decide)).2 (by decide)

/-! ## Last-space guard (C4) -/

/-- C4 counterexample: deletion-detection apply on the sole remaining
space is not rejected — it runs, changes the store and empties the spaces
map, so no structural guard exists on that path. -/
theorem c4_counterexample :
    (removeDeletedWorkspaces ⟨[("a", mkSpace "A" "📄" false)], ["a"], "a", []⟩ ["a"]).spaces = []
    ∧ removeDeletedWorkspaces ⟨[("a", mkSpace "A" "📄" false)], ["a"], "a", []⟩ ["a"]
        ≠ ⟨[("a", mkSpace "A" "📄" false)], ["a"], "a", []⟩ := by
  decide

theorem deleteSpaceStore_spaces_eq (switching : Option String)
    (s : ContextWorkspacesSettings) (sid first : String) :
    (if switching.isSome ∨ first = s.currentSpaceId then s
     else { s with currentSpaceId := first }).spaces = s.spaces := by
  split <;> rfl

/-- C4 amended: the explicit deleteSpace guard rejects a deletion leaving
no other identifier in the order and leaves the store unchanged, and an
accepted explicit deletion never empties the spaces map (under the store
invariant); the deletion-detection apply carries no such guard. -/
theorem c4_amended_last_space_guard :
    (∀ (switching : Option String) (s : ContextWorkspacesSettings) (sid : String),
      (s.spaceOrder.filter (fun id => id ≠ sid)).length = 0 →
      deleteSpaceStore switching s sid = s)
    ∧ (∀ (switching : Option String) (s : ContextWorkspacesSettings) (sid : String),
      StoreInvariant s → s.spaces ≠ [] →
      (deleteSpaceStore switching s sid).spaces ≠ []) := by
  constructor
  · intro switching s sid h
    unfold deleteSpaceStore
    rw [if_pos h]
  · intro switching s sid hinv hne
    unfold deleteSpaceStore
    by_cases h : (s.spaceOrder.filter (fun id => id ≠ sid)).length = 0
    · rw [if_pos h]
      exact hne
    · rw [if_neg h]
      cases hrem : s.spaceOrder.filter (fun id => id ≠ sid) with
      | nil => exact absurd (by rw [hrem]; rfl) h
      | cons first rest =>
        have hfirst : first ∈ s.spaceOrder.filter (fun id => id ≠ sid) := by
          rw [hrem]
          exact List.mem_cons_self _ _
        rw [List.mem_filter] at hfirst
        have hmem : first ∈ akeys s.spaces := hinv.2.2.1 first hfirst.1
        have hne₂ : first ≠ sid := by
          have := hfirst.2
          simpa using this
        have hstep : ∀ sp₂ : List (String × SpaceConfig), sp₂ = s.spaces →
            adel sp₂ sid = [] → False := by
          intro sp₂ hs₂ he
          have hm : first ∈ akeys (adel sp₂ sid) := by
            rw [hs₂]
            exact mem_akeys_adel_of_ne hmem sid hne₂
          rw [he] at hm
          simp [akeys] at hm
        by_cases hcur : sid = s.currentSpaceId
        · rw [if_pos hcur]
          dsimp only
          by_cases hg : switching.isSome = true ∨ first = s.currentSpaceId
          · rw [if_pos hg]
            intro hemp
            exact hstep s.spaces rfl hemp
          · rw [if_neg hg]
            intro hemp
            exact hstep s.spaces rfl hemp
        · rw [if_neg hcur]
          dsimp only
          intro hemp
          exact hstep s.spaces rfl hemp

/-- C4 witness: the sole-space rejection and a non-emptying accepted
deletion on concrete stores. -/
theorem c4_witness :
    deleteSpaceStore none ⟨[("a", mkSpace "A" "📄" false)], ["a"], "a", []⟩ "a"
      = ⟨[("a", mkSpace "A" "📄" false)], ["a"], "a", []⟩
    ∧ (deleteSpaceStore none
        ⟨[("a", mkSpace "A" "📄" false), ("b", mkSpace "B" "📄" false)], ["a", "b"], "a", []⟩
        "b").spaces ≠ [] := by
  constructor
  · exact c4_amended_last_space_guard.1 none
      ⟨[("a", mkSpace "A" "📄" false)], ["a"], "a", []⟩ "a" (by decide)
  · exact c4_amended_last_space_guard.2 none
      ⟨[("a", mkSpace "A" "📄" false), ("b", mkSpace "B" "📄" false)], ["a", "b"], "a", []⟩
      "b" (by decide) (by decide)

/-! ## Deletion-apply lemmas (C6) -/

theorem hwcRemoveStep_nodup (acc : ContextWorkspacesSettings) (wid : String)
    (h₁ : (akeys acc.spaces).Nodup) (h₂ : acc.spaceOrder.Nodup)
    (h₃ : (akeys acc.workspaceLastSeen).Nodup) :
    (akeys (hwcRemoveStep acc wid).spaces).Nodup
    ∧ (hwcRemoveStep acc wid).spaceOrder.Nodup
    ∧ (akeys (hwcRemoveStep acc wid).workspaceLastSeen).Nodup := by
  refine ⟨akeys_adel_nodup h₁ wid, orderErase_nodup h₂ wid, ?_⟩
  show (akeys (match alookup acc.workspaceLastSeen wid with
    | some t => if t ≠ 0 then adel acc.workspaceLastSeen wid else acc.workspaceLastSeen
    | none => acc.workspaceLastSeen)).Nodup
  split
  · split
    · exact akeys_adel_nodup h₃ wid
    · exact h₃
  · exact h₃

theorem foldl_hwcRemoveStep_nodup (del : List String) :
    ∀ acc : ContextWorkspacesSettings,
    (akeys acc.spaces).Nodup → acc.spaceOrder.Nodup → (akeys acc.workspaceLastSeen).Nodup →
    (akeys (del.foldl hwcRemoveStep acc).spaces).Nodup
    ∧ (del.foldl hwcRemoveStep acc).spaceOrder.Nodup
    ∧ (akeys (del.foldl hwcRemoveStep acc).workspaceLastSeen).Nodup := by
  induction del with
  | nil => intro acc h₁ h₂ h₃; exact ⟨h₁, h₂, h₃⟩
  | cons w rest ih =>
    intro acc h₁ h₂ h₃
    rw [List.foldl_cons]
    have hs := hwcRemoveStep_nodup acc w h₁ h₂ h₃
    exact ih _ hs.1 hs.2.1 hs.2.2

theorem foldl_hwcRemoveStep_subset (del : List String) :
    ∀ acc : ContextWorkspacesSettings,
    akeys (del.foldl hwcRemoveStep acc).spaces ⊆ akeys acc.spaces
    ∧ (del.foldl hwcRemoveStep acc).spaceOrder ⊆ acc.spaceOrder := by
  induction del with
  | nil => intro acc; exact ⟨List.Subset.refl _, List.Subset.refl _⟩
  | cons w rest ih =>
    intro acc
    rw [List.foldl_cons]
    exact ⟨(ih _).1.trans (akeys_adel_subset _ _), (ih _).2.trans (orderErase_subset _ _)⟩

theorem alookup_adel_ne {α : Type} (l : List (String × α)) {k k₂ : String} (h : k ≠ k₂) :
    alookup (adel l k₂) k = alookup l k := by
  induction l with
  | nil => rfl
  | cons hd t ih =>
    obtain ⟨k₃, v₃⟩ := hd
    by_cases hk : k₃ = k₂
    · have h₂ : k₃ ≠ k := fun he => h (he ▸ hk)
      simp [adel, alookup, hk, h₂, Ne.symm h]
    · simp [adel, alookup, hk, ih]

theorem alookup_adel_self {α : Type} {l : List (String × α)} (hnd : (akeys l).Nodup)
    (k : String) : alookup (adel l k) k = none := by
  rw [alookup_eq_none_iff]
  exact not_mem_akeys_adel hnd k

theorem hwcRemoveStep_lastSeen (acc : ContextWorkspacesSettings) (w k : String)
    (h₃ : (akeys acc.workspaceLastSeen).Nodup) :
    alookup (hwcRemoveStep acc w).workspaceLastSeen k = alookup acc.workspaceLastSeen k
    ∨ alookup (hwcRemoveStep acc w).workspaceLastSeen k = none := by
  show alookup (match alookup acc.workspaceLastSeen w with
    | some t => if t ≠ 0 then adel acc.workspaceLastSeen w else acc.workspaceLastSeen
    | none => acc.workspaceLastSeen) k = alookup acc.workspaceLastSeen k
    ∨ alookup (match alookup acc.workspaceLastSeen w with
    | some t => if t ≠ 0 then adel acc.workspaceLastSeen w else acc.workspaceLastSeen
    | none => acc.workspaceLastSeen) k = none
  split
  · split
    · by_cases hk : k = w
      · subst hk
        exact Or.inr (alookup_adel_self h₃ k)
      · exact Or.inl (alookup_adel_ne _ hk)
    · exact Or.inl rfl
  · exact Or.inl rfl

theorem foldl_hwcRemoveStep_lastSeen (del : List String) :
    ∀ (acc : ContextWorkspacesSettings) (k : String),
    (akeys acc.workspaceLastSeen).Nodup →
    alookup (del.foldl hwcRemoveStep acc).workspaceLastSeen k
      = alookup acc.workspaceLastSeen k
    ∨ alookup (del.foldl hwcRemoveStep acc).workspaceLastSeen k = none := by
  induction del with
  | nil =>
    intro acc k _
    exact Or.inl rfl
  | cons w rest ih =>
    intro acc k h₃
    rw [List.foldl_cons]
    have hnd₂ : (akeys (hwcRemoveStep acc w).workspaceLastSeen).Nodup := by
      show (akeys (match alookup acc.workspaceLastSeen w with
        | some t => if t ≠ 0 then adel acc.workspaceLastSeen w else acc.workspaceLastSeen
        | none => acc.workspaceLastSeen)).Nodup
      split
      · split
        · exact akeys_adel_nodup h₃ w
        · exact h₃
      · exact h₃
    rcases ih (hwcRemoveStep acc w) k hnd₂ with h | h
    · rw [h]
      exact hwcRemoveStep_lastSeen acc w k h₃
    · exact Or.inr h

theorem foldl_hwcRemoveStep_removes (del : List String) :
    ∀ acc : ContextWorkspacesSettings,
    (akeys acc.spaces).Nodup → acc.spaceOrder.Nodup → (akeys acc.workspaceLastSeen).Nodup →
    ∀ wid ∈ del,
      wid ∉ akeys (del.foldl hwcRemoveStep acc).spaces
      ∧ wid ∉ (del.foldl hwcRemoveStep acc).spaceOrder
      ∧ (alookup (del.foldl hwcRemoveStep acc).workspaceLastSeen wid = none
         ∨ alookup (del.foldl hwcRemoveStep acc).workspaceLastSeen wid = some 0) := by
  induction del with
  | nil =>
    intro acc _ _ _ wid hmem
    simp at hmem
  | cons w rest ih =>
    intro acc h₁ h₂ h₃ wid hmem
    rw [List.foldl_cons]
    have hstep := hwcRemoveStep_nodup acc w h₁ h₂ h₃
    rcases List.mem_cons.1 hmem with hw | hw
    · subst hw
      refine ⟨fun hm => ?_, fun hm => ?_, ?_⟩
      · exact not_mem_akeys_adel h₁ wid ((foldl_hwcRemoveStep_subset rest _).1 hm)
      · exact not_mem_orderErase h₂ wid ((foldl_hwcRemoveStep_subset rest _).2 hm)
      · have hls : alookup (hwcRemoveStep acc wid).workspaceLastSeen wid = none
            ∨ alookup (hwcRemoveStep acc wid).workspaceLastSeen wid = some 0 := by
          show alookup (match alookup acc.workspaceLastSeen wid with
            | some t => if t ≠ 0 then adel acc.workspaceLastSeen wid else acc.workspaceLastSeen
            | none => acc.workspaceLastSeen) wid = none
            ∨ alookup (match alookup acc.workspaceLastSeen wid with
            | some t => if t ≠ 0 then adel acc.workspaceLastSeen wid else acc.workspaceLastSeen
            | none => acc.workspaceLastSeen) wid = some 0
          cases hq : alookup acc.workspaceLastSeen wid with
          | none => simp [hq]
          | some t =>
            simp only [hq]
            by_cases ht : t = 0
            · rw [if_neg (fun hc => hc ht), hq, ht]
              exact Or.inr rfl
            · rw [if_pos ht]
              exact Or.inl (alookup_adel_self h₃ wid)
        rcases foldl_hwcRemoveStep_lastSeen rest (hwcRemoveStep acc wid) wid hstep.2.2
          with hf | hf
        · rw [hf]
          exact hls
        · exact Or.inl hf
    · exact ih _ hstep.1 hstep.2.1 hstep.2.2 wid hw

theorem foldl_removeDeletedStep_subset (del : List String) :
    ∀ acc : ContextWorkspacesSettings,
    akeys (del.foldl removeDeletedStep acc).spaces ⊆ akeys acc.spaces
    ∧ (del.foldl removeDeletedStep acc).spaceOrder ⊆ acc.spaceOrder := by
  induction del with
  | nil =>
    intro acc
    exact ⟨List.Subset.refl _, List.Subset.refl _⟩
  | cons w rest ih =>
    intro acc
    rw [List.foldl_cons]
    exact ⟨(ih _).1.trans (akeys_adel_subset _ _), (ih _).2.trans (orderErase_subset _ _)⟩

theorem foldl_removeDeletedStep_frame (del : List String) :
    ∀ acc : ContextWorkspacesSettings,
    (del.foldl removeDeletedStep acc).workspaceLastSeen = acc.workspaceLastSeen
    ∧ (del.foldl removeDeletedStep acc).currentSpaceId = acc.currentSpaceId := by
  induction del with
  | nil =>
    intro acc
    exact ⟨rfl, rfl⟩
  | cons w rest ih =>
    intro acc
    rw [List.foldl_cons]
    exact ih _

theorem foldl_removeDeletedStep_removes (del : List String) :
    ∀ acc : ContextWorkspacesSettings,
    (akeys acc.spaces).Nodup → acc.spaceOrder.Nodup →
    ∀ wid ∈ del,
      wid ∉ akeys (del.foldl removeDeletedStep acc).spaces
      ∧ wid ∉ (del.foldl removeDeletedStep acc).spaceOrder := by
  induction del with
  | nil =>
    intro acc _ _ wid hmem
    simp at hmem
  | cons w rest ih =>
    intro acc h₁ h₂ wid hmem
    rw [List.foldl_cons]
    have hs₁ : (akeys (removeDeletedStep acc w).spaces).Nodup := akeys_adel_nodup h₁ w
    have hs₂ : (removeDeletedStep acc w).spaceOrder.Nodup := orderErase_nodup h₂ w
    rcases List.mem_cons.1 hmem with hw | hw
    · subst hw
      refine ⟨fun hm => ?_, fun hm => ?_⟩
      · exact not_mem_akeys_adel h₁ wid ((foldl_removeDeletedStep_subset rest _).1 hm)
      · exact not_mem_orderErase h₂ wid ((foldl_removeDeletedStep_subset rest _).2 hm)
    · exact ih _ hs₁ hs₂ wid hw

theorem hwcRemove_fields (s : ContextWorkspacesSettings) (deleted : List String)
    (currentDeleted : Bool) :
    (hwcRemove s deleted currentDeleted).spaces = (deleted.foldl hwcRemoveStep s).spaces
    ∧ (hwcRemove s deleted currentDeleted).spaceOrder = (deleted.foldl hwcRemoveStep s).spaceOrder
    ∧ (hwcRemove s deleted currentDeleted).workspaceLastSeen
        = (deleted.foldl hwcRemoveStep s).workspaceLastSeen := by
  unfold hwcRemove
  split <;> exact ⟨rfl, rfl, rfl⟩

/-- C6 counterexample: with order a, default, b and active b deleted, the
workspace-change removal phase sets the active identifier to the literal
default identifier, not to the first entry a of the post-removal order;
and the detect-utils apply leaves the lastSeen entry of the removed
identifier in place. -/
theorem c6_counterexample :
    (hwcRemove ⟨[("default", mkSpace "Default" "📄" false), ("a", mkSpace "A" "📄" false),
        ("b", mkSpace "B" "📄" false)], ["a", "default", "b"], "b", [("b", 100)]⟩
      ["b"] true).currentSpaceId = "default"
    ∧ (hwcRemove ⟨[("default", mkSpace "Default" "📄" false), ("a", mkSpace "A" "📄" false),
        ("b", mkSpace "B" "📄" false)], ["a", "default", "b"], "b", [("b", 100)]⟩
      ["b"] true).spaceOrder.head? = some "a"
    ∧ (hwcRemove ⟨[("default", mkSpace "Default" "📄" false), ("a", mkSpace "A" "📄" false),
        ("b", mkSpace "B" "📄" false)], ["a", "default", "b"], "b", [("b", 100)]⟩
      ["b"] true).currentSpaceId ≠ "a"
    ∧ (removeDeletedWorkspaces ⟨[("default", mkSpace "Default" "📄" false),
        ("a", mkSpace "A" "📄" false), ("b", mkSpace "B" "📄" false)],
        ["a", "default", "b"], "b", [("b", 100)]⟩ ["b"]).workspaceLastSeen = [("b", 100)] := by
  decide

/-- C6 amended: the workspace-change apply removes each candidate from
spaces, from the order, and from lastSeen (a zero timestamp, being falsy,
is left in place), and reassigns the active identifier to the literal
default identifier when it was among the deletions; the detect-utils apply
removes candidates from spaces and order only, leaving lastSeen and the
active identifier untouched, while its caller switchToFirstWorkspace
reassigns the active identifier to the first entry of the post-removal
order; all of these are pure store operations with no theme or layout
effects. -/
theorem c6_apply_characterization :
    (∀ (s : ContextWorkspacesSettings) (deleted : List String) (currentDeleted : Bool),
      (akeys s.spaces).Nodup → s.spaceOrder.Nodup → (akeys s.workspaceLastSeen).Nodup →
      (∀ wid ∈ deleted,
        wid ∉ akeys (hwcRemove s deleted currentDeleted).spaces
        ∧ wid ∉ (hwcRemove s deleted currentDeleted).spaceOrder
        ∧ (alookup (hwcRemove s deleted currentDeleted).workspaceLastSeen wid = none
           ∨ alookup (hwcRemove s deleted currentDeleted).workspaceLastSeen wid = some 0))
      ∧ (currentDeleted = true → (hwcRemove s deleted currentDeleted).currentSpaceId = "default"))
    ∧ (∀ (s : ContextWorkspacesSettings) (deleted : List String),
      (akeys s.spaces).Nodup → s.spaceOrder.Nodup →
      (∀ wid ∈ deleted,
        wid ∉ akeys (removeDeletedWorkspaces s deleted).spaces
        ∧ wid ∉ (removeDeletedWorkspaces s deleted).spaceOrder)
      ∧ (removeDeletedWorkspaces s deleted).workspaceLastSeen = s.workspaceLastSeen
      ∧ (removeDeletedWorkspaces s deleted).currentSpaceId = s.currentSpaceId)
    ∧ (∀ (s : ContextWorkspacesSettings) (f : String),
      s.spaceOrder.head? = some f → f ≠ "" →
      (switchToFirstWorkspace s).currentSpaceId = f
      ∧ (switchToFirstWorkspace s).spaces = s.spaces
      ∧ (switchToFirstWorkspace s).spaceOrder = s.spaceOrder
      ∧ (switchToFirstWorkspace s).workspaceLastSeen = s.workspaceLastSeen) := by
  refine ⟨?_, ?_, ?_⟩
  · intro s deleted currentDeleted h₁ h₂ h₃
    constructor
    · intro wid hmem
      have hf := hwcRemove_fields s deleted currentDeleted
      rw [hf.1, hf.2.1, hf.2.2]
      exact foldl_hwcRemoveStep_removes deleted s h₁ h₂ h₃ wid hmem
    · intro hcd
      unfold hwcRemove
      rw [hcd]
      rfl
  · intro s deleted h₁ h₂
    exact ⟨foldl_removeDeletedStep_removes deleted s h₁ h₂,
      (foldl_removeDeletedStep_frame deleted s).1,
      (foldl_removeDeletedStep_frame deleted s).2⟩
  · intro s f hf hne
    unfold switchToFirstWorkspace
    rw [hf]
    dsimp only
    by_cases hc : s.currentSpaceId = f
    · rw [if_neg (fun hx => hx.2 hc)]
      exact ⟨hc, rfl, rfl, rfl⟩
    · rw [if_pos ⟨hne, hc⟩]
      exact ⟨rfl, rfl, rfl, rfl⟩

/-- C6 witness: the characterization applied at a concrete three-space
store with the active identifier among the deletions. -/
theorem c6_witness :
    ("b" ∉ akeys (hwcRemove ⟨[("default", mkSpace "Default" "📄" false),
        ("a", mkSpace "A" "📄" false), ("b", mkSpace "B" "📄" false)],
        ["a", "default", "b"], "b", [("b", 100)]⟩ ["b"] true).spaces
     ∧ (hwcRemove ⟨[("default", mkSpace "Default" "📄" false),
        ("a", mkSpace "A" "📄" false), ("b", mkSpace "B" "📄" false)],
        ["a", "default", "b"], "b", [("b", 100)]⟩ ["b"] true).currentSpaceId = "default")
    ∧ (switchToFirstWorkspace ⟨[("a", mkSpace "A" "📄" false)], ["a"], "b", []⟩).currentSpaceId
        = "a" := by
  constructor
  · have h := (c6_apply_characterization.1 ⟨[("default", mkSpace "Default" "📄" false),
      ("a", mkSpace "A" "📄" false), ("b", mkSpace "B" "📄" false)],
      ["a", "default", "b"], "b", [("b", 100)]⟩ ["b"] true
      (by decide) (by decide) (by decide))
    exact ⟨(h.1 "b" (by decide)).1, h.2 rfl⟩
  · exact (c6_apply_characterization.2.2 ⟨[("a", mkSpace "A" "📄" false)], ["a"], "b", []⟩
      "a" rfl (by decide)).1

/-! ## Injectivity of the decimal rendering used by the identifier
generator (counter interpolation in the generateSpaceId loop) -/

theorem toDigitsCore_eq_digits (f : Nat) : ∀ (n : Nat) (ds : List Char), 0 < n → n < f →
    Nat.toDigitsCore 10 f n ds = ((Nat.digits 10 n).map Nat.digitChar).reverse ++ ds := by
  induction f with
  | zero =>
    intro n ds h₀ h
    omega
  | succ f ih =>
    intro n ds h₀ h
    rw [Nat.toDigitsCore]
    by_cases hdiv : n / 10 = 0
    · rw [if_pos hdiv]
      have hn : n < 10 := by omega
      have hd : Nat.digits 10 n = [n % 10] := by
        rw [Nat.digits_def' (by norm_num : (1:Nat) < 10) h₀, hdiv]
        simp
      rw [hd]
      simp
    · rw [if_neg hdiv]
      have h₁ : 0 < n / 10 := Nat.pos_of_ne_zero hdiv
      have h₂ : n / 10 < f := by
        have h₃ : n / 10 < n := Nat.div_lt_self h₀ (by norm_num)
        omega
      rw [ih (n / 10) (Nat.digitChar (n % 10) :: ds) h₁ h₂]
      rw [Nat.digits_def' (by norm_num : (1:Nat) < 10) h₀]
      simp

theorem toDigits_eq_digits (n : Nat) (h₀ : 0 < n) :
    Nat.toDigits 10 n = ((Nat.digits 10 n).map Nat.digitChar).reverse := by
  rw [Nat.toDigits, toDigitsCore_eq_digits (n + 1) n [] h₀ (Nat.lt_succ_self n)]
  simp

theorem digitChar_inj_fin : ∀ a b : Fin 10, Nat.digitChar a.val = Nat.digitChar b.val → a = b := by
  decide

theorem map_digitChar_inj : ∀ l₁ l₂ : List Nat, (∀ x ∈ l₁, x < 10) → (∀ x ∈ l₂, x < 10) →
    l₁.map Nat.digitChar = l₂.map Nat.digitChar → l₁ = l₂ := by
  intro l₁
  induction l₁ with
  | nil =>
    intro l₂ _ _ h
    cases l₂ with
    | nil => rfl
    | cons b t₂ => simp at h
  | cons a t ih =>
    intro l₂ h₁ h₂ h
    cases l₂ with
    | nil => simp at h
    | cons b t₂ =>
      simp only [List.map_cons, List.cons.injEq] at h
      have ha : a < 10 := h₁ a (List.mem_cons_self _ _)
      have hb : b < 10 := h₂ b (List.mem_cons_self _ _)
      have hab : a = b := congrArg Fin.val (digitChar_inj_fin ⟨a, ha⟩ ⟨b, hb⟩ h.1)
      rw [hab, ih t₂ (fun x hx => h₁ x (List.mem_cons_of_mem _ hx))
        (fun x hx => h₂ x (List.mem_cons_of_mem _ hx)) h.2]

theorem string_data_append (s t : String) : (s ++ t).data = s.data ++ t.data := by
  cases s
  cases t
  rfl

theorem toDigits_eq_of_pos_inj {m n : Nat} (hm : 0 < m) (hn : 0 < n)
    (h : Nat.toDigits 10 m = Nat.toDigits 10 n) : m = n := by
  rw [toDigits_eq_digits m hm, toDigits_eq_digits n hn] at h
  have h₂ : (Nat.digits 10 m).map Nat.digitChar = (Nat.digits 10 n).map Nat.digitChar :=
    List.reverse_injective h
  have h₃ : Nat.digits 10 m = Nat.digits 10 n :=
    map_digitChar_inj _ _ (fun x hx => Nat.digits_lt_base (by norm_num) hx)
      (fun x hx => Nat.digits_lt_base (by norm_num) hx) h₂
  calc m = Nat.ofDigits 10 (Nat.digits 10 m) := (Nat.ofDigits_digits 10 m).symm
    _ = Nat.ofDigits 10 (Nat.digits 10 n) := by rw [h₃]
    _ = n := Nat.ofDigits_digits 10 n

theorem toDigits_zero_pos_ne (n : Nat) (hn : 0 < n) :
    Nat.toDigits 10 0 ≠ Nat.toDigits 10 n := by
  intro h
  have h₀ : Nat.toDigits 10 0 = ['0'] := rfl
  rw [h₀, toDigits_eq_digits n hn] at h
  have hlen := congrArg List.length h
  simp at hlen
  obtain ⟨d, hd⟩ : ∃ d, Nat.digits 10 n = [d] := by
    cases hq : Nat.digits 10 n with
    | nil =>
      rw [hq] at hlen
      simp at hlen
    | cons d t =>
      cases ht : t with
      | nil => exact ⟨d, rfl⟩
      | cons e t₂ =>
        rw [hq, ht] at hlen
        simp at hlen
  rw [hd] at h
  simp at h
  have hdlt : d < 10 := Nat.digits_lt_base (by norm_num) (by rw [hd]; exact List.mem_singleton_self d)
  have hd0 : d = 0 := by
    have h₅ := digitChar_inj_fin ⟨d, hdlt⟩ ⟨0, by norm_num⟩
      (h.symm.trans (show ('0' : Char) = Nat.digitChar 0 from rfl))
    simpa using congrArg Fin.val h₅
  have := Nat.ofDigits_digits 10 n
  rw [hd, hd0] at this
  simp [Nat.ofDigits] at this
  omega

theorem nat_repr_injective {m n : Nat} (h : Nat.repr m = Nat.repr n) : m = n := by
  have hdata : Nat.toDigits 10 m = Nat.toDigits 10 n := by
    have h₂ := congrArg String.data h
    simpa [Nat.repr, List.asString] using h₂
  rcases Nat.eq_zero_or_pos m with hm | hm
  · rcases Nat.eq_zero_or_pos n with hn | hn
    · rw [hm, hn]
    · subst hm
      exact absurd hdata (toDigits_zero_pos_ne n hn)
  · rcases Nat.eq_zero_or_pos n with hn | hn
    · subst hn
      exact absurd hdata.symm (toDigits_zero_pos_ne m hm)
    · exact toDigits_eq_of_pos_inj hm hn hdata

theorem spaceIdCandidate_injective (base : String) :
    Function.Injective (spaceIdCandidate base) := by
  intro i j h
  match i, j with
  | 0, 0 => rfl
  | 0, j + 1 =>
    exfalso
    have hd := congrArg String.data h
    rw [spaceIdCandidate, spaceIdCandidate, string_data_append, string_data_append] at hd
    have hlen := congrArg List.length hd
    simp at hlen
  | i + 1, 0 =>
    exfalso
    have hd := congrArg String.data h
    rw [spaceIdCandidate, spaceIdCandidate, string_data_append, string_data_append] at hd
    have hlen := congrArg List.length hd
    simp at hlen
  | i + 1, j + 1 =>
    have hd := congrArg String.data h
    rw [spaceIdCandidate, spaceIdCandidate, string_data_append, string_data_append,
      string_data_append, string_data_append, List.append_assoc, List.append_assoc] at hd
    have h₂ := List.append_cancel_left hd
    have h₃ := List.append_cancel_left h₂
    have h₄ : Nat.repr (i + 1) = Nat.repr (j + 1) := by
      apply String.ext
      exact h₃
    rw [nat_repr_injective h₄]

/-! ## Freshness of generated identifiers -/

theorem genLoop_not_mem (base : String) (keys : List String) : ∀ (fuel counter : Nat),
    (∃ i, i < fuel ∧ spaceIdCandidate base (counter + i) ∉ keys) →
    genLoop base keys fuel counter ∉ keys := by
  intro fuel
  induction fuel with
  | zero =>
    intro counter h
    obtain ⟨i, hi, _⟩ := h
    omega
  | succ fuel ih =>
    intro counter h
    rw [genLoop]
    by_cases hc : spaceIdCandidate base counter ∈ keys
    · rw [if_pos hc]
      apply ih
      obtain ⟨i, hi, hni⟩ := h
      cases i with
      | zero => exact absurd hc (by simpa using hni)
      | succ i =>
        refine ⟨i, by omega, ?_⟩
        have he : counter + 1 + i = counter + (i + 1) := by omega
        rw [he]
        exact hni
    · rw [if_neg hc]
      exact hc

theorem exists_fresh_candidate (base : String) (keys : List String) :
    ∃ i, i < keys.length + 1 ∧ spaceIdCandidate base i ∉ keys := by
  by_contra hall
  push_neg at hall
  have hnd : ((List.range (keys.length + 1)).map (spaceIdCandidate base)).Nodup :=
    (List.nodup_range _).map (spaceIdCandidate_injective base)
  have hsub : (List.range (keys.length + 1)).map (spaceIdCandidate base) ⊆ keys := by
    intro x hx
    rw [List.mem_map] at hx
    obtain ⟨i, hi, rfl⟩ := hx
    exact hall i (List.mem_range.1 hi)
  have hcard : ((List.range (keys.length + 1)).map (spaceIdCandidate base)).toFinset.card
      = keys.length + 1 := by
    rw [List.toFinset_card_of_nodup hnd]
    simp
  have hle : ((List.range (keys.length + 1)).map (spaceIdCandidate base)).toFinset.card
      ≤ keys.toFinset.card :=
    Finset.card_le_card (fun x hx => List.mem_toFinset.2 (hsub (List.mem_toFinset.1 hx)))
  have hfin := List.toFinset_card_le keys
  omega

/-- The identifier produced by generateSpaceId is never an existing key of
the spaces map: the while loop stops at the first free candidate, and one
more candidate than there are keys always contains a free one. -/
theorem generateSpaceId_fresh (name : String) (spaces : List (String × SpaceConfig)) :
    alookup spaces (generateSpaceId name spaces) = none := by
  rw [alookup_eq_none_iff]
  unfold generateSpaceId
  have hlen : spaces.length = (akeys spaces).length := by simp [akeys]
  split
  · rw [hlen]
    apply genLoop_not_mem "space" (akeys spaces)
    obtain ⟨i, hi, hni⟩ := exists_fresh_candidate "space" (akeys spaces)
    exact ⟨i, hi, by simpa using hni⟩
  · rw [hlen]
    apply genLoop_not_mem (sanitizeBase name) (akeys spaces)
    obtain ⟨i, hi, hni⟩ := exists_fresh_candidate (sanitizeBase name) (akeys spaces)
    exact ⟨i, hi, by simpa using hni⟩

/-! ## Invariant preservation (C2) -/

theorem nodup_append_single {α : Type} {l : List α} (h : l.Nodup) {a : α} (ha : a ∉ l) :
    (l ++ [a]).Nodup := by
  rw [List.nodup_append]
  refine ⟨h, List.nodup_singleton a, ?_⟩
  intro x hx hxa
  rw [List.mem_singleton] at hxa
  subst hxa
  exact ha hx

theorem sync_invariant (snap : List (String × String)) :
    ∀ (sp : List (String × SpaceConfig)) (ord : List String),
    (akeys sp).Nodup → ord.Nodup →
    (∀ id ∈ ord, id ∈ akeys sp) → (∀ id ∈ akeys sp, id ∈ ord) →
    (akeys (syncSpaces snap sp)).Nodup ∧ (syncOrder snap sp ord).Nodup
    ∧ (∀ id ∈ syncOrder snap sp ord, id ∈ akeys (syncSpaces snap sp))
    ∧ (∀ id ∈ akeys (syncSpaces snap sp), id ∈ syncOrder snap sp ord) := by
  induction snap with
  | nil =>
    intro sp ord h₁ h₂ h₃ h₄
    exact ⟨h₁, h₂, h₃, h₄⟩
  | cons hd rest ih =>
    obtain ⟨w, n⟩ := hd
    intro sp ord h₁ h₂ h₃ h₄
    cases hl : alookup sp w with
    | none =>
      have hw : w ∉ akeys sp := (alookup_eq_none_iff sp w).1 hl
      have hwo : w ∉ ord := fun hm => hw (h₃ w hm)
      simp only [syncSpaces, syncOrder, hl]
      rw [if_neg hwo]
      apply ih
      · rw [akeys_append, akeys_cons, akeys_nil₀]
        exact nodup_append_single h₁ hw
      · exact nodup_append_single h₂ hwo
      · intro id hm
        rw [akeys_append, akeys_cons, akeys_nil₀]
        rcases List.mem_append.1 hm with hm | hm
        · exact List.mem_append_left _ (h₃ id hm)
        · exact List.mem_append_right _ hm
      · intro id hm
        rw [akeys_append, akeys_cons, akeys_nil₀] at hm
        rcases List.mem_append.1 hm with hm | hm
        · exact List.mem_append_left _ (h₄ id hm)
        · exact List.mem_append_right _ hm
    | some cfg =>
      by_cases hn : cfg.name = n
      · simp only [syncSpaces, syncOrder, hl, if_pos hn]
        exact ih sp ord h₁ h₂ h₃ h₄
      · simp only [syncSpaces, syncOrder, hl, if_neg hn]
        apply ih
        · rw [akeys_aset]
          exact h₁
        · exact h₂
        · intro id hm
          rw [akeys_aset]
          exact h₃ id hm
        · intro id hm
          rw [akeys_aset] at hm
          exact h₄ id hm

theorem removeDeletedStep_invariant (acc : ContextWorkspacesSettings) (wid : String)
    (hinv : StoreInvariant acc) : StoreInvariant (removeDeletedStep acc wid) := by
  obtain ⟨h₁, h₂, h₃, h₄⟩ := hinv
  refine ⟨orderErase_nodup h₁ wid, akeys_adel_nodup h₂ wid, ?_, ?_⟩
  · intro id hm
    have hne : id ≠ wid := fun he => not_mem_orderErase h₁ wid (he ▸ hm)
    exact mem_akeys_adel_of_ne (h₃ id (orderErase_subset _ _ hm)) wid hne
  · intro id hm
    have hne : id ≠ wid := fun he => not_mem_akeys_adel h₂ wid (he ▸ hm)
    exact mem_orderErase_of_ne (h₄ id (akeys_adel_subset _ _ hm)) wid hne

theorem hwcRemoveStep_invariant (acc : ContextWorkspacesSettings) (wid : String)
    (hinv : StoreInvariant acc) : StoreInvariant (hwcRemoveStep acc wid) :=
  removeDeletedStep_invariant acc wid hinv

theorem foldl_removeDeletedStep_invariant (del : List String) :
    ∀ acc : ContextWorkspacesSettings, StoreInvariant acc →
    StoreInvariant (del.foldl removeDeletedStep acc) := by
  induction del with
  | nil => intro acc h; exact h
  | cons w rest ih =>
    intro acc h
    rw [List.foldl_cons]
    exact ih _ (removeDeletedStep_invariant acc w h)

theorem foldl_hwcRemoveStep_invariant (del : List String) :
    ∀ acc : ContextWorkspacesSettings, StoreInvariant acc →
    StoreInvariant (del.foldl hwcRemoveStep acc) := by
  induction del with
  | nil => intro acc h; exact h
  | cons w rest ih =>
    intro acc h
    rw [List.foldl_cons]
    exact ih _ (hwcRemoveStep_invariant acc w h)

/-- C2: every store-mutating operation — space creation, explicit space
deletion, reconciliation import, and both deletion-detection removal
paths — preserves the bijection invariant between spaceOrder and the keys
of spaces. -/
theorem c2_order_spaces_bijection :
    (∀ (s : ContextWorkspacesSettings) (d : ParsedSpaceData),
      StoreInvariant s → StoreInvariant (createNewSpaceStore s d))
    ∧ (∀ (switching : Option String) (s : ContextWorkspacesSettings) (sid : String),
      StoreInvariant s → StoreInvariant (deleteSpaceStore switching s sid))
    ∧ (∀ (createOk : String → Bool) (host : List (String × String))
        (s : ContextWorkspacesSettings),
      StoreInvariant s → StoreInvariant (performBidirectionalSync createOk host s).1)
    ∧ (∀ (s : ContextWorkspacesSettings) (deleted : List String),
      StoreInvariant s → StoreInvariant (removeDeletedWorkspaces s deleted))
    ∧ (∀ (s : ContextWorkspacesSettings) (deleted : List String) (currentDeleted : Bool),
      StoreInvariant s → StoreInvariant (hwcRemove s deleted currentDeleted)) := by
  refine ⟨?_, ?_, ?_, ?_, ?_⟩
  · intro s d hinv
    obtain ⟨h₁, h₂, h₃, h₄⟩ := hinv
    have hfresh := generateSpaceId_fresh d.name s.spaces
    have hnk : generateSpaceId d.name s.spaces ∉ akeys s.spaces :=
      (alookup_eq_none_iff _ _).1 hfresh
    have hno : generateSpaceId d.name s.spaces ∉ s.spaceOrder := fun hm => hnk (h₃ _ hm)
    unfold createNewSpaceStore aupsert
    dsimp only
    rw [hfresh]
    simp only [Option.isSome_none, Bool.false_eq_true, if_false]
    refine ⟨nodup_append_single h₁ hno, ?_, ?_, ?_⟩
    · rw [akeys_append, akeys_cons, akeys_nil₀]
      exact nodup_append_single h₂ hnk
    · intro id hm
      rw [akeys_append, akeys_cons, akeys_nil₀]
      rcases List.mem_append.1 hm with hm | hm
      · exact List.mem_append_left _ (h₃ id hm)
      · exact List.mem_append_right _ hm
    · intro id hm
      rw [akeys_append, akeys_cons, akeys_nil₀] at hm
      rcases List.mem_append.1 hm with hm | hm
      · exact List.mem_append_left _ (h₄ id hm)
      · exact List.mem_append_right _ hm
  · intro switching s sid hinv
    unfold deleteSpaceStore
    by_cases h : (s.spaceOrder.filter (fun id => id ≠ sid)).length = 0
    · rw [if_pos h]
      exact hinv
    · rw [if_neg h]
      obtain ⟨h₁, h₂, h₃, h₄⟩ := hinv
      have key : ∀ s₂ : ContextWorkspacesSettings, s₂.spaces = s.spaces →
          s₂.spaceOrder = s.spaceOrder →
          StoreInvariant ⟨adel s₂.spaces sid,
            s₂.spaceOrder.filter (fun id => id ≠ sid), s₂.currentSpaceId,
            s₂.workspaceLastSeen⟩ := by
        intro s₂ hsp hord
        rw [hsp, hord]
        refine ⟨List.Nodup.filter _ h₁, akeys_adel_nodup h₂ sid, ?_, ?_⟩
        · intro id hm
          rw [List.mem_filter] at hm
          have hne : id ≠ sid := by simpa using hm.2
          exact mem_akeys_adel_of_ne (h₃ id hm.1) sid hne
        · intro id hm
          have hne : id ≠ sid := fun he => not_mem_akeys_adel h₂ sid (he ▸ hm)
          rw [List.mem_filter]
          exact ⟨h₄ id (akeys_adel_subset _ _ hm), by simpa using hne⟩
      cases hrem : s.spaceOrder.filter (fun id => id ≠ sid) with
      | nil => exact absurd (by rw [hrem]; rfl) h
      | cons first rest =>
        by_cases hcur : sid = s.currentSpaceId
        · rw [if_pos hcur]
          dsimp only
          by_cases hg : switching.isSome = true ∨ first = s.currentSpaceId
          · rw [if_pos hg]
            exact key s rfl rfl
          · rw [if_neg hg]
            exact key { s with currentSpaceId := first } rfl rfl
        · rw [if_neg hcur]
          exact key s rfl rfl
  · intro createOk host s hinv
    obtain ⟨h₁, h₂, h₃, h₄⟩ := hinv
    have h := sync_invariant (hostSnapshot host) s.spaces s.spaceOrder h₂ h₁ h₃ h₄
    exact ⟨h.2.1, h.1, h.2.2.1, h.2.2.2⟩
  · intro s deleted hinv
    exact foldl_removeDeletedStep_invariant deleted s hinv
  · intro s deleted currentDeleted hinv
    have h := foldl_hwcRemoveStep_invariant deleted s hinv
    unfold hwcRemove
    split
    · exact ⟨h.1, h.2.1, h.2.2.1, h.2.2.2⟩
    · exact h

/-- C2 witness: the invariant survives a concrete create, delete,
reconcile and removal. -/
theorem c2_witness :
    StoreInvariant (createNewSpaceStore
      ⟨[("a", mkSpace "A" "📄" false)], ["a"], "a", []⟩
      ⟨"My Space", "🏠", none, none, none⟩)
    ∧ StoreInvariant (deleteSpaceStore none
      ⟨[("a", mkSpace "A" "📄" false), ("b", mkSpace "B" "📄" false)], ["a", "b"], "a", []⟩ "b")
    ∧ StoreInvariant (performBidirectionalSync (fun _ => true) [("c", "Gamma")]
      ⟨[("a", mkSpace "A" "📄" false)], ["a"], "a", []⟩).1
    ∧ StoreInvariant (removeDeletedWorkspaces
      ⟨[("a", mkSpace "A" "📄" false), ("b", mkSpace "B" "📄" false)], ["a", "b"], "a", []⟩
      ["b"])
    ∧ StoreInvariant (hwcRemove
      ⟨[("a", mkSpace "A" "📄" false), ("b", mkSpace "B" "📄" false)], ["a", "b"], "b", []⟩
      ["b"] true) :=
  ⟨c2_order_spaces_bijection.1 _ _ (by decide),
   c2_order_spaces_bijection.2.1 none _ "b" (by decide),
   c2_order_spaces_bijection.2.2.1 _ _ _ (by decide),
   c2_order_spaces_bijection.2.2.2.1 _ _ (by decide),
   c2_order_spaces_bijection.2.2.2.2 _ _ _ (by decide)⟩

/-! ## Idempotence of reconciliation (C10) -/

theorem mem_aset {α : Type} : ∀ {l : List (String × α)} {q : String × α} {k : String} {v : α},
    q ∈ aset l k v → q ∈ l ∨ q = (k, v) := by
  intro l
  induction l with
  | nil =>
    intro q k v h
    simp [aset] at h
  | cons hd t ih =>
    intro q k v h
    obtain ⟨k₂, v₂⟩ := hd
    by_cases hk : k₂ = k
    · rw [aset, if_pos hk] at h
      rcases List.mem_cons.1 h with h | h
      · subst hk
        exact Or.inr h
      · exact Or.inl (List.mem_cons_of_mem _ h)
    · rw [aset, if_neg hk] at h
      rcases List.mem_cons.1 h with h | h
      · exact Or.inl (h ▸ List.mem_cons_self _ _)
      · rcases ih h with h | h
        · exact Or.inl (List.mem_cons_of_mem _ h)
        · exact Or.inr h

theorem sync_noop_of_agree (snap : List (String × String)) :
    ∀ sp : List (String × SpaceConfig),
    (∀ p ∈ snap, ∃ cfg, alookup sp p.1 = some cfg ∧ cfg.name = p.2) →
    syncSpaces snap sp = sp ∧ syncImported snap sp = [] ∧ syncConflicts snap sp = []
    ∧ ∀ ord : List String, syncOrder snap sp ord = ord := by
  induction snap with
  | nil =>
    intro sp _
    exact ⟨rfl, rfl, rfl, fun ord => rfl⟩
  | cons hd rest ih =>
    obtain ⟨w, n⟩ := hd
    intro sp h
    obtain ⟨cfg, hc, hname⟩ := h (w, n) (List.mem_cons_self _ _)
    have hrest := ih sp (fun p hp => h p (List.mem_cons_of_mem _ hp))
    refine ⟨?_, ?_, ?_, ?_⟩
    · simp only [syncSpaces, hc, if_pos hname]
      exact hrest.1
    · simp only [syncImported, hc, if_pos hname]
      exact hrest.2.1
    · simp only [syncConflicts, hc, if_pos hname]
      exact hrest.2.2.1
    · intro ord
      simp only [syncOrder, hc, if_pos hname]
      exact hrest.2.2.2 ord

theorem syncCreate_noop (snap : List (String × String)) (createOk : String → Bool) :
    ∀ sp : List (String × SpaceConfig), (∀ q ∈ sp, hostHas snap q.1 = true) →
    syncCreatedEntries snap createOk sp = [] ∧ syncErrors snap createOk sp = [] := by
  intro sp
  induction sp with
  | nil =>
    intro _
    exact ⟨rfl, rfl⟩
  | cons hd rest ih =>
    intro h
    obtain ⟨k, cfg⟩ := hd
    have hk : hostHas snap k = true := h (k, cfg) (List.mem_cons_self _ _)
    have hrest := ih (fun q hq => h q (List.mem_cons_of_mem _ hq))
    constructor
    · rw [syncCreatedEntries, if_pos hk]
      exact hrest.1
    · rw [syncErrors, if_pos hk]
      exact hrest.2

theorem syncSpaces_keys_nodup (snap : List (String × String)) :
    ∀ sp : List (String × SpaceConfig), (akeys sp).Nodup →
    (akeys (syncSpaces snap sp)).Nodup := by
  induction snap with
  | nil =>
    intro sp h
    exact h
  | cons hd rest ih =>
    obtain ⟨w, n⟩ := hd
    intro sp h
    cases hl : alookup sp w with
    | none =>
      simp only [syncSpaces, hl]
      apply ih
      rw [akeys_append, akeys_cons, akeys_nil₀]
      exact nodup_append_single h ((alookup_eq_none_iff sp w).1 hl)
    | some cfg =>
      by_cases hn : cfg.name = n
      · simp only [syncSpaces, hl, if_pos hn]
        exact ih sp h
      · simp only [syncSpaces, hl, if_neg hn]
        apply ih
        rw [akeys_aset]
        exact h

theorem syncSpaces_names_ne_empty (snap : List (String × String)) :
    ∀ sp : List (String × SpaceConfig), (∀ p ∈ snap, p.2 ≠ "") →
    (∀ q ∈ sp, q.2.name ≠ "") → ∀ q ∈ syncSpaces snap sp, q.2.name ≠ "" := by
  induction snap with
  | nil =>
    intro sp _ hsp
    exact hsp
  | cons hd rest ih =>
    obtain ⟨w, n⟩ := hd
    intro sp hsnap hsp
    have hn₂ : n ≠ "" := hsnap (w, n) (List.mem_cons_self _ _)
    have hrest : ∀ p ∈ rest, p.2 ≠ "" := fun p hp => hsnap p (List.mem_cons_of_mem _ hp)
    cases hl : alookup sp w with
    | none =>
      simp only [syncSpaces, hl]
      apply ih _ hrest
      intro q hq
      rcases List.mem_append.1 hq with hq | hq
      · exact hsp q hq
      · rw [List.mem_singleton] at hq
        subst hq
        exact hn₂
    | some cfg =>
      by_cases hnm : cfg.name = n
      · simp only [syncSpaces, hl, if_pos hnm]
        exact ih sp hrest hsp
      · simp only [syncSpaces, hl, if_neg hnm]
        apply ih _ hrest
        intro q hq
        rcases mem_aset hq with hq | hq
        · exact hsp q hq
        · subst hq
          exact hn₂

theorem syncSpaces_matches (snap : List (String × String)) :
    ∀ sp : List (String × SpaceConfig), (snap.map Prod.fst).Nodup →
    ∀ p ∈ snap, ∃ cfg, alookup (syncSpaces snap sp) p.1 = some cfg ∧ cfg.name = p.2 := by
  induction snap with
  | nil =>
    intro sp _ p hp
    simp at hp
  | cons hd rest ih =>
    obtain ⟨w, n⟩ := hd
    intro sp hnd p hp
    rw [List.map_cons, List.nodup_cons] at hnd
    rcases List.mem_cons.1 hp with hp | hp
    · subst hp
      cases hl : alookup sp w with
      | none =>
        refine ⟨importedSpace n, ?_, rfl⟩
        simp only [syncSpaces, hl]
        rw [syncSpaces_alookup_not_mem rest _ w hnd.1,
          alookup_append_right hl, alookup_cons, if_pos rfl]
      | some cfg =>
        by_cases hn : cfg.name = n
        · refine ⟨cfg, ?_, hn⟩
          simp only [syncSpaces, hl, if_pos hn]
          rw [syncSpaces_alookup_not_mem rest _ w hnd.1]
          exact hl
        · refine ⟨{ cfg with name := n }, ?_, rfl⟩
          simp only [syncSpaces, hl, if_neg hn]
          rw [syncSpaces_alookup_not_mem rest _ w hnd.1]
          exact alookup_aset_self hl _
    · cases hl : alookup sp w with
      | none =>
        simp only [syncSpaces, hl]
        exact ih _ hnd.2 p hp
      | some cfg =>
        by_cases hn : cfg.name = n
        · simp only [syncSpaces, hl, if_pos hn]
          exact ih _ hnd.2 p hp
        · simp only [syncSpaces, hl, if_neg hn]
          exact ih _ hnd.2 p hp

theorem hostSnapshot_values_ne_empty (host : List (String × String))
    (h : ∀ p ∈ host, p.1 ≠ "") : ∀ p ∈ hostSnapshot host, p.2 ≠ "" := by
  intro p hp
  rw [hostSnapshot, List.mem_map] at hp
  obtain ⟨q, hq, rfl⟩ := hp
  by_cases hv : q.2 = ""
  · rw [if_pos hv]
    exact h q hq
  · rw [if_neg hv]
    exact hv

theorem hostHas_false_iff_none (snap : List (String × String)) (k : String)
    (hv : ∀ p ∈ snap, p.2 ≠ "") : hostHas snap k = false ↔ alookup snap k = none := by
  cases hl : alookup snap k with
  | none => simp [hostHas, hl]
  | some v =>
    have hv₂ : v ≠ "" := hv (k, v) (alookup_mem hl)
    simp [hostHas, hl, hv₂]

theorem syncCreated_alookup (snap : List (String × String)) :
    ∀ sp : List (String × SpaceConfig), (akeys sp).Nodup →
    ∀ q ∈ sp, hostHas snap q.1 = false →
    alookup (syncCreatedEntries snap (fun _ => true) sp) q.1 = some q.2.name := by
  intro sp
  induction sp with
  | nil =>
    intro _ q hq
    simp at hq
  | cons hd rest ih =>
    intro hnd q hq hfalse
    obtain ⟨k, cfg⟩ := hd
    rw [akeys_cons, List.nodup_cons] at hnd
    rcases List.mem_cons.1 hq with hq | hq
    · subst hq
      rw [syncCreatedEntries, if_neg (by rw [hfalse]; exact Bool.false_ne_true)]
      rw [if_pos rfl]
      rw [alookup_cons, if_pos rfl]
    · have hkq : k ≠ q.1 := by
        intro he
        exact hnd.1 (he ▸ List.mem_map_of_mem Prod.fst hq)
      rw [syncCreatedEntries]
      by_cases hh : hostHas snap k = true
      · rw [if_pos hh]
        exact ih hnd.2 q hq hfalse
      · rw [if_neg hh, if_pos rfl, alookup_cons, if_neg hkq]
        exact ih hnd.2 q hq hfalse

theorem syncCreated_mem (snap : List (String × String)) (createOk : String → Bool) :
    ∀ sp : List (String × SpaceConfig), ∀ e ∈ syncCreatedEntries snap createOk sp,
    ∃ q ∈ sp, e = (q.1, q.2.name) ∧ hostHas snap q.1 = false := by
  intro sp
  induction sp with
  | nil =>
    intro e he
    simp [syncCreatedEntries] at he
  | cons hd rest ih =>
    intro e he
    obtain ⟨k, cfg⟩ := hd
    rw [syncCreatedEntries] at he
    by_cases hh : hostHas snap k = true
    · rw [if_pos hh] at he
      obtain ⟨q, hq, he₂, hf⟩ := ih e he
      exact ⟨q, List.mem_cons_of_mem _ hq, he₂, hf⟩
    · rw [if_neg hh] at he
      have hh₂ : hostHas snap k = false := by
        cases hx : hostHas snap k
        · rfl
        · exact absurd hx hh
      by_cases hok : createOk k = true
      · rw [if_pos hok] at he
        rcases List.mem_cons.1 he with he | he
        · exact ⟨(k, cfg), List.mem_cons_self _ _, he, hh₂⟩
        · obtain ⟨q, hq, he₂, hf⟩ := ih e he
          exact ⟨q, List.mem_cons_of_mem _ hq, he₂, hf⟩
      · rw [if_neg hok] at he
        obtain ⟨q, hq, he₂, hf⟩ := ih e he
        exact ⟨q, List.mem_cons_of_mem _ hq, he₂, hf⟩

theorem syncCreated_keys_nodup (snap : List (String × String)) (createOk : String → Bool) :
    ∀ sp : List (String × SpaceConfig), (akeys sp).Nodup →
    ((syncCreatedEntries snap createOk sp).map Prod.fst).Nodup := by
  intro sp
  induction sp with
  | nil =>
    intro _
    exact List.nodup_nil
  | cons hd rest ih =>
    intro hnd
    obtain ⟨k, cfg⟩ := hd
    rw [akeys_cons, List.nodup_cons] at hnd
    rw [syncCreatedEntries]
    by_cases hh : hostHas snap k = true
    · rw [if_pos hh]
      exact ih hnd.2
    · rw [if_neg hh]
      by_cases hok : createOk k = true
      · rw [if_pos hok, List.map_cons, List.nodup_cons]
        refine ⟨fun hm => ?_, ih hnd.2⟩
        rw [List.mem_map] at hm
        obtain ⟨e, he, hke⟩ := hm
        obtain ⟨q, hq, he₂, _⟩ := syncCreated_mem snap createOk rest e he
        apply hnd.1
        have hk₂ : q.1 = k := by
          rw [he₂] at hke
          simpa using hke
        rw [← hk₂]
        exact List.mem_map_of_mem Prod.fst hq
      · rw [if_neg hok]
        exact ih hnd.2

theorem alookup_hostSnapshot (l : List (String × String)) (k : String) :
    alookup (hostSnapshot l) k
      = (alookup l k).map (fun v => if v = "" then k else v) := by
  induction l with
  | nil => rfl
  | cons hd t ih =>
    obtain ⟨k₂, v₂⟩ := hd
    by_cases hk : k₂ = k
    · subst hk
      simp [hostSnapshot, alookup]
    · simp only [hostSnapshot, List.map_cons] at ih ⊢
      rw [alookup_cons, alookup_cons, if_neg hk, if_neg hk]
      exact ih

theorem foldl_hostInsert_append : ∀ (created host : List (String × String)),
    (∀ e ∈ created, alookup host e.1 = none) → ((created.map Prod.fst).Nodup) →
    created.foldl (fun h e => hostInsert h e.1 e.2) host = host ++ created := by
  intro created
  induction created with
  | nil =>
    intro host _ _
    simp
  | cons e rest ih =>
    intro host hnone hnd
    rw [List.map_cons, List.nodup_cons] at hnd
    rw [List.foldl_cons]
    have hstep : hostInsert host e.1 e.2 = host ++ [e] := by
      rw [hostInsert, if_neg (by rw [hnone e (List.mem_cons_self _ _)]; simp)]
    rw [hstep, ih (host ++ [e]) ?_ hnd.2]
    · rw [List.append_assoc]
      rfl
    · intro e₂ he₂
      rw [alookup_append_single_ne host e.2 ?_]
      · exact hnone e₂ (List.mem_cons_of_mem _ he₂)
      · intro he
        exact hnd.1 (he ▸ List.mem_map_of_mem Prod.fst he₂)

theorem hostSnapshot_append (l₁ l₂ : List (String × String)) :
    hostSnapshot (l₁ ++ l₂) = hostSnapshot l₁ ++ hostSnapshot l₂ := by
  simp [hostSnapshot]

/-- C10: when host and store agree — every snapshot entry is stored under
the same identifier with the same name and every stored identifier is
present in the snapshot — reconciliation changes neither the settings nor
the host registry and returns an empty report; and running the pass twice
in a row (the registry evolving only by the first pass's own successful
creations) makes the second pass a no-op with an empty report, given
duplicate-free keys and truthy identifiers and names. -/
theorem c10_reconcile_idempotent :
    (∀ (createOk : String → Bool) (host : List (String × String))
       (s : ContextWorkspacesSettings),
      (∀ p ∈ hostSnapshot host, ∃ cfg, alookup s.spaces p.1 = some cfg ∧ cfg.name = p.2) →
      (∀ q ∈ s.spaces, hostHas (hostSnapshot host) q.1 = true) →
      performBidirectionalSync createOk host s = (s, host, ⟨[], [], [], []⟩))
    ∧ (∀ (host : List (String × String)) (s : ContextWorkspacesSettings),
      (host.map Prod.fst).Nodup → (∀ p ∈ host, p.1 ≠ "") →
      (akeys s.spaces).Nodup → (∀ q ∈ s.spaces, q.2.name ≠ "") →
      performBidirectionalSync (fun _ => true)
          (performBidirectionalSync (fun _ => true) host s).2.1
          (performBidirectionalSync (fun _ => true) host s).1
        = ((performBidirectionalSync (fun _ => true) host s).1,
           (performBidirectionalSync (fun _ => true) host s).2.1,
           ⟨[], [], [], []⟩)) := by
  have hA : ∀ (createOk : String → Bool) (host : List (String × String))
      (s : ContextWorkspacesSettings),
      (∀ p ∈ hostSnapshot host, ∃ cfg, alookup s.spaces p.1 = some cfg ∧ cfg.name = p.2) →
      (∀ q ∈ s.spaces, hostHas (hostSnapshot host) q.1 = true) →
      performBidirectionalSync createOk host s = (s, host, ⟨[], [], [], []⟩) := by
    intro createOk host s h₁ h₂
    have hs := sync_noop_of_agree (hostSnapshot host) s.spaces h₁
    unfold performBidirectionalSync
    dsimp only
    rw [hs.1, hs.2.1, hs.2.2.1, hs.2.2.2 s.spaceOrder]
    have hc := syncCreate_noop (hostSnapshot host) createOk s.spaces h₂
    rw [hc.1, hc.2]
    rfl
  refine ⟨hA, ?_⟩
  intro host s hnd₁ hids hnd₂ hnames
  have hvals := hostSnapshot_values_ne_empty host hids
  have hnd_snap : ((hostSnapshot host).map Prod.fst).Nodup := by
    rw [hostSnapshot_keys]
    exact hnd₁
  have hsp₁nodup := syncSpaces_keys_nodup (hostSnapshot host) s.spaces hnd₂
  have hsp₁names := syncSpaces_names_ne_empty (hostSnapshot host) s.spaces hvals hnames
  have hcnone : ∀ e ∈ syncCreatedEntries (hostSnapshot host) (fun _ => true)
      (syncSpaces (hostSnapshot host) s.spaces), alookup host e.1 = none := by
    intro e he
    obtain ⟨q, hq, he₂, hf⟩ := syncCreated_mem _ _ _ e he
    rw [he₂]
    rw [alookup_eq_none_iff]
    intro hm
    have hsnapnone := (hostHas_false_iff_none _ _ hvals).1 hf
    rw [alookup_eq_none_iff] at hsnapnone
    apply hsnapnone
    show q.1 ∈ akeys (hostSnapshot host)
    rw [show akeys (hostSnapshot host) = akeys host from hostSnapshot_keys host]
    exact hm
  have hcnodup := syncCreated_keys_nodup (hostSnapshot host) (fun _ => true) _ hsp₁nodup
  have hfold := foldl_hostInsert_append _ host hcnone hcnodup
  have hproj : performBidirectionalSync (fun _ => true) host s
      = (⟨syncSpaces (hostSnapshot host) s.spaces,
          syncOrder (hostSnapshot host) s.spaces s.spaceOrder,
          s.currentSpaceId, s.workspaceLastSeen⟩,
         host ++ syncCreatedEntries (hostSnapshot host) (fun _ => true)
           (syncSpaces (hostSnapshot host) s.spaces),
         ⟨syncImported (hostSnapshot host) s.spaces,
          (syncCreatedEntries (hostSnapshot host) (fun _ => true)
            (syncSpaces (hostSnapshot host) s.spaces)).map Prod.fst,
          syncConflicts (hostSnapshot host) s.spaces,
          syncErrors (hostSnapshot host) (fun _ => true)
            (syncSpaces (hostSnapshot host) s.spaces)⟩) := by
    unfold performBidirectionalSync
    dsimp only
    rw [hfold]
  have hi : ∀ p ∈ hostSnapshot (host ++ syncCreatedEntries (hostSnapshot host) (fun _ => true)
      (syncSpaces (hostSnapshot host) s.spaces)),
      ∃ cfg, alookup (syncSpaces (hostSnapshot host) s.spaces) p.1 = some cfg
        ∧ cfg.name = p.2 := by
    intro p hp
    rw [hostSnapshot_append, List.mem_append] at hp
    rcases hp with hp | hp
    · exact syncSpaces_matches (hostSnapshot host) s.spaces hnd_snap p hp
    · rw [hostSnapshot, List.mem_map] at hp
      obtain ⟨e, he, heq⟩ := hp
      obtain ⟨q, hq, he₂, hf⟩ := syncCreated_mem _ _ _ e he
      subst heq
      subst he₂
      have hqn : q.2.name ≠ "" := hsp₁names q hq
      refine ⟨q.2, alookup_of_mem_nodup hsp₁nodup hq, ?_⟩
      show q.2.name = if q.2.name = "" then q.1 else q.2.name
      rw [if_neg hqn]
  have hii : ∀ q ∈ syncSpaces (hostSnapshot host) s.spaces,
      hostHas (hostSnapshot (host ++ syncCreatedEntries (hostSnapshot host) (fun _ => true)
        (syncSpaces (hostSnapshot host) s.spaces))) q.1 = true := by
    intro q hq
    by_cases hh : hostHas (hostSnapshot host) q.1 = true
    · cases hl : alookup (hostSnapshot host) q.1 with
      | none =>
        rw [hostHas, hl] at hh
        simp at hh
      | some v =>
        have hv : v ≠ "" := by
          rw [hostHas, hl] at hh
          simpa using hh
        have hl₂ : alookup (hostSnapshot (host ++ syncCreatedEntries (hostSnapshot host)
            (fun _ => true) (syncSpaces (hostSnapshot host) s.spaces))) q.1 = some v := by
          rw [hostSnapshot_append]
          exact alookup_append_left hl _
        simp [hostHas, hl₂, hv]
    · have hf : hostHas (hostSnapshot host) q.1 = false := by
        cases hx : hostHas (hostSnapshot host) q.1
        · rfl
        · exact absurd hx hh
      have hnone := (hostHas_false_iff_none _ _ hvals).1 hf
      have hcl := syncCreated_alookup (hostSnapshot host) _ hsp₁nodup q hq hf
      have hqn : q.2.name ≠ "" := hsp₁names q hq
      have hl₂ : alookup (hostSnapshot (host ++ syncCreatedEntries (hostSnapshot host)
          (fun _ => true) (syncSpaces (hostSnapshot host) s.spaces))) q.1 = some q.2.name := by
        rw [hostSnapshot_append, alookup_append_right hnone, alookup_hostSnapshot, hcl]
        simp [hqn]
      simp [hostHas, hl₂, hqn]
  rw [hproj]
  exact hA (fun _ => true) _ _ hi hii

/-- C10 witness: a fully agreeing host and store pass through
reconciliation untouched, and a second pass after a pass that imported and
created reports nothing. -/
theorem c10_witness :
    performBidirectionalSync (fun _ => true) [("a", "Alpha")]
      ⟨[("a", mkSpace "Alpha" "📄" false)], ["a"], "a", []⟩
      = (⟨[("a", mkSpace "Alpha" "📄" false)], ["a"], "a", []⟩, [("a", "Alpha")],
         ⟨[], [], [], []⟩)
    ∧ performBidirectionalSync (fun _ => true)
        (performBidirectionalSync (fun _ => true) [("c", "Gamma")]
          ⟨[("b", mkSpace "Beta" "📄" true)], ["b"], "b", []⟩).2.1
        (performBidirectionalSync (fun _ => true) [("c", "Gamma")]
          ⟨[("b", mkSpace "Beta" "📄" true)], ["b"], "b", []⟩).1
      = ((performBidirectionalSync (fun _ => true) [("c", "Gamma")]
          ⟨[("b", mkSpace "Beta" "📄" true)], ["b"], "b", []⟩).1,
         (performBidirectionalSync (fun _ => true) [("c", "Gamma")]
          ⟨[("b", mkSpace "Beta" "📄" true)], ["b"], "b", []⟩).2.1,
         ⟨[], [], [], []⟩) := by
  constructor
  · apply c10_reconcile_idempotent.1
    · intro p hp
      have hsnap : hostSnapshot [("a", "Alpha")] = [("a", "Alpha")] := by decide
      rw [hsnap, List.mem_singleton] at hp
      subst hp
      exact ⟨mkSpace "Alpha" "📄" false, by decide, by decide⟩
    · intro q hq
      rw [List.mem_singleton] at hq
      subst hq
      decide
  · apply c10_reconcile_idempotent.2
    · decide
    · decide
    · decide
    · decide

end ContextWorkspaces
